import Mathlib

/-!
# Email Designer Pro (`src/src/App.jsx`): parameter store, preview substitution,
# persistence and export

A shallow embedding of the handlers of the `EmailDesignerPro` component.

* A JavaScript string is the list of its UTF-16 code units (`JSString`).
* `new Blob([s])` holds the UTF-8 bytes of `s` after its conversion to scalar
  values, an unpaired surrogate becoming U+FFFD.
* `JSON.stringify` and `JSON.parse` are parameters of the persistence handlers;
  `jsonStringify` and `jsonParse` give them on `undefined`, `null` and the
  booleans.
* `new RegExp(p, "g")` and `String.prototype.replace` follow ECMAScript
  (with the Annex B pattern grammar, no `u` flag) on the fragment of patterns
  made of single code units and `.`, each optionally followed by a
  quantifier.  Patterns using any other construct get `Failure.unsupported`.
* React state, the storage slot and the calls made on the composer are passed
  explicitly (`World`); an exception thrown by a handler is an `Except` error
  and leaves the state as it was.
-/

set_option autoImplicit false

namespace EmailDesigner

/-! ## JavaScript strings -/

/-- A JavaScript string: the sequence of its UTF-16 code units. -/
abbrev JSString := List Nat

/-- UTF-16 encoding of one code point. -/
def utf16Char (c : Char) : List Nat :=
  if c.toNat < 65536 then [c.toNat]
  else [55296 + (c.toNat - 65536) / 1024, 56320 + (c.toNat - 65536) % 1024]

/-- The JavaScript string written as the Lean literal `s`. -/
def utf16 (s : String) : JSString :=
  s.toList.foldr (fun c acc => utf16Char c ++ acc) []

/-! ## Regular expressions: `new RegExp(pattern, "g")` -/

/-- An atom of the modelled pattern fragment. -/
inductive Atom where
  /-- A pattern character matching exactly that code unit. -/
  | unit (c : Nat)
  /-- The atom `.`: any code unit that is not a line terminator. -/
  | dot
  deriving DecidableEq, Repr

/-- A term: an atom with its repetition bounds (`max = none` is unbounded). -/
structure Term where
  atom : Atom
  min : Nat
  max : Option Nat
  greedy : Bool
  deriving DecidableEq, Repr

/-- Why a handler did not run to its end. -/
inductive Failure where
  /-- A TypeError is thrown (a property of `undefined` is written). -/
  | typeError
  /-- A SyntaxError is thrown (by the RegExp constructor or by `JSON.parse`). -/
  | syntaxError
  /-- The input is outside the modelled fragment of patterns or of JSON texts. -/
  | unsupported
  deriving DecidableEq, Repr

deriving instance DecidableEq for Except

/-- Code units `0`..`9`. -/
def isDigit (c : Nat) : Bool := decide (48 ≤ c) && decide (c ≤ 57)

/-- Value of a run of decimal digits. -/
def digitsValue (ds : List Nat) : Nat :=
  ds.foldl (fun acc d => acc * 10 + (d - 48)) 0

/-- The text after an opening brace, read as the body of a braced quantifier:
`n}`, `n,}` or `n,m}`.  Returns the bounds and the text after the closing
brace. -/
def parseBraces (s : JSString) : Option (Nat × Option Nat × JSString) :=
  match s.span isDigit with
  | ([], _) => none
  | (ds, 125 :: rest) => some (digitsValue ds, some (digitsValue ds), rest)
  | (ds, 44 :: rest) =>
    match rest.span isDigit with
    | ([], 125 :: rest2) => some (digitsValue ds, none, rest2)
    | ([], _) => none
    | (es, 125 :: rest2) => some (digitsValue ds, some (digitsValue es), rest2)
    | (_, _) => none
  | (_, _) => none

/-- QuantifierPrefix: `*`, `+`, `?` or a braced quantifier. -/
def parseQuantifierPrefix (s : JSString) : Option (Nat × Option Nat × JSString) :=
  match s with
  | [] => none
  | c :: rest =>
    if c = 42 then some (0, none, rest)
    else if c = 43 then some (1, none, rest)
    else if c = 63 then some (0, some 1, rest)
    else if c = 123 then parseBraces rest
    else none

/-- Whether `max < min` for a quantifier (an early SyntaxError). -/
def boundsOutOfOrder (min : Nat) (max : Option Nat) : Bool :=
  match max with
  | none => false
  | some m => decide (m < min)

/-- The characters `^ $ \ ( ) [ |`, whose constructs are not modelled. -/
def unsupportedChars : List Nat := [94, 36, 92, 40, 41, 91, 124]

/-- Parser for the alternative of terms; `fuel` bounds the number of terms. -/
def parseTerms : Nat → JSString → Except Failure (List Term)
  | 0, _ => .error .unsupported
  | _ + 1, [] => .ok []
  | fuel + 1, c :: rest =>
    if c ∈ unsupportedChars then .error .unsupported
    else if c = 42 ∨ c = 43 ∨ c = 63 then .error .syntaxError
    else if c = 123 ∧ (parseBraces rest).isSome then .error .syntaxError
    else
      let atom := if c = 46 then Atom.dot else Atom.unit c
      match parseQuantifierPrefix rest with
      | none =>
        match parseTerms fuel rest with
        | .ok ts => .ok (⟨atom, 1, some 1, true⟩ :: ts)
        | .error e => .error e
      | some (min, max, rest1) =>
        if boundsOutOfOrder min max then .error .syntaxError
        else
          match rest1 with
          | [] => .ok [⟨atom, min, max, true⟩]
          | d :: rest2 =>
            if d = 63 then
              match parseTerms fuel rest2 with
              | .ok ts => .ok (⟨atom, min, max, false⟩ :: ts)
              | .error e => .error e
            else
              match parseTerms fuel (d :: rest2) with
              | .ok ts => .ok (⟨atom, min, max, true⟩ :: ts)
              | .error e => .error e

/-- Compile a pattern: `new RegExp(pattern, "g")`. -/
def parsePattern (pattern : JSString) : Except Failure (List Term) :=
  parseTerms (pattern.length + 1) pattern

/-- Line terminators: LF, CR, LS, PS. -/
def isLineTerminator (c : Nat) : Bool :=
  c == 10 || c == 13 || c == 8232 || c == 8233

/-- Whether an atom matches one code unit. -/
def atomMatches : Atom → Nat → Bool
  | .unit c, d => d == c
  | .dot, d => !isLineTerminator d

/-- RepeatMatcher for a one-unit atom followed by the continuation `k`; the
result is the number of code units consumed. -/
def matchRep (ok : Nat → Bool) (k : JSString → Option Nat) (greedy : Bool) :
    Nat → Option Nat → JSString → Option Nat
  | min, max, [] =>
    if max = some 0 then k []
    else if min ≠ 0 then none
    else k []
  | min, max, c :: cs =>
    if max = some 0 then k (c :: cs)
    else
      let consume : Option Nat :=
        if ok c then (matchRep ok k greedy (min - 1) (max.map (· - 1)) cs).map (· + 1)
        else none
      if min ≠ 0 then consume
      else if greedy then
        match consume with
        | some n => some n
        | none => k (c :: cs)
      else
        match k (c :: cs) with
        | some n => some n
        | none => consume

/-- Match a list of terms at the start of `s`, backtracking in priority order. -/
def matchTerms : List Term → JSString → Option Nat
  | [], _ => some 0
  | t :: ts, s => matchRep (atomMatches t.atom) (matchTerms ts) t.greedy t.min t.max s

/-! ## `String.prototype.replace` with a global RegExp -/

/-- GetSubstitution for a match without capture groups. -/
def getSubstitution (matched before after : JSString) : JSString → JSString
  | [] => []
  | c :: rest =>
    if c = 36 then
      match rest with
      | [] => [36]
      | d :: rest2 =>
        if d = 36 then 36 :: getSubstitution matched before after rest2
        else if d = 38 then matched ++ getSubstitution matched before after rest2
        else if d = 96 then before ++ getSubstitution matched before after rest2
        else if d = 39 then after ++ getSubstitution matched before after rest2
        else 36 :: getSubstitution matched before after (d :: rest2)
    else c :: getSubstitution matched before after rest

/-- The scan of `RegExp.prototype[Symbol.replace]` for a global RegExp.
`pre` is the text already passed (reversed), `skip` the code units of the
current match that are still to be passed. -/
def replaceLoop (ts : List Term) (rep : JSString) :
    JSString → Nat → JSString → JSString
  | pre, 0, [] =>
    match matchTerms ts [] with
    | some _ => getSubstitution [] pre.reverse [] rep
    | none => []
  | _, _ + 1, [] => []
  | pre, skip + 1, c :: cs => replaceLoop ts rep (c :: pre) skip cs
  | pre, 0, c :: cs =>
    match matchTerms ts (c :: cs) with
    | none => c :: replaceLoop ts rep (c :: pre) 0 cs
    | some 0 =>
      getSubstitution [] pre.reverse (c :: cs) rep ++ c :: replaceLoop ts rep (c :: pre) 0 cs
    | some (n + 1) =>
      getSubstitution ((c :: cs).take (n + 1)) pre.reverse ((c :: cs).drop (n + 1)) rep
        ++ replaceLoop ts rep (c :: pre) n cs

/-- The expression `s.replace(new RegExp(pattern, "g"), rep)`. -/
def regexReplace (pattern rep s : JSString) : Except Failure JSString :=
  match parsePattern pattern with
  | .ok ts => .ok (replaceLoop ts rep [] 0 s)
  | .error e => .error e

/-! ## Parameters and the preview substitution -/

/-- An entry of the `parameters` state. -/
structure Parameter where
  key : JSString
  value : JSString
  deriving DecidableEq, Repr

/-- The template literal with the key between two pairs of braces. -/
def token (key : JSString) : JSString := [123, 123] ++ key ++ [125, 125]

/-- The expression `v || ""` on a string. -/
def orEmpty (v : JSString) : JSString := if v = [] then [] else v

/-- The `forEach` loop of `exportHtml` (lines 78-81). -/
def substitute : JSString → List Parameter → Except Failure JSString
  | html, [] => .ok html
  | html, p :: ps =>
    match regexReplace (token p.key) (orEmpty p.value) html with
    | .ok html1 => substitute html1 ps
    | .error e => .error e

/-- The markup-level reading of the substitution: replace every occurrence of
the literal text `pat` by `rep`, scanning left to right; `skip` counts the
code units of the current occurrence still to be passed. -/
def literalReplace (pat rep : JSString) : Nat → JSString → JSString
  | _, [] => []
  | skip + 1, _ :: cs => literalReplace pat rep skip cs
  | 0, c :: cs =>
    if pat <+: c :: cs then rep ++ literalReplace pat rep (pat.length - 1) cs
    else c :: literalReplace pat rep 0 cs

/-- The substitution as the specification words it: fold over the parameters
in store order, replacing the literal token of each key by its value. -/
def specSubstitute (m : JSString) (ps : List Parameter) : JSString :=
  ps.foldl (fun html p => literalReplace (token p.key) p.value 0 html) m

/-! ## Parameter store -/

/-- The two fields a parameter row edits (`"key"` at line 253, `"value"` at
line 261). -/
inductive Field where
  | key
  | value
  deriving DecidableEq, Repr

/-- The assignment `p[field] = val`. -/
def setField (p : Parameter) : Field → JSString → Parameter
  | .key, val => { p with key := val }
  | .value, val => { p with value := val }

/-- The handler `handleParamChange(i, field, val)`: the list handed to
`setParameters`, or the TypeError of writing a property of `undefined`. -/
def handleParamChange (parameters : List Parameter) (i : Nat) (field : Field)
    (val : JSString) : Except Failure (List Parameter) :=
  let updated := parameters
  match updated[i]? with
  | none => .error .typeError
  | some p => .ok (updated.set i (setField p field val))

/-- The handler `addParameter()`. -/
def addParameter (parameters : List Parameter) : List Parameter :=
  parameters ++ [{ key := [], value := [] }]

/-- The method `Array.prototype.filter` with the element index, from `idx`. -/
def filterWithIndex (f : Parameter → Nat → Bool) : Nat → List Parameter → List Parameter
  | _, [] => []
  | idx, p :: ps =>
    if f p idx then p :: filterWithIndex f (idx + 1) ps
    else filterWithIndex f (idx + 1) ps

/-- The handler `deleteParameter(i)`. -/
def deleteParameter (parameters : List Parameter) (i : Nat) : List Parameter :=
  filterWithIndex (fun _ idx => idx != i) 0 parameters

/-- The parameter list after a handler ran: a handler that threw made no call
to `setParameters`. -/
def parametersAfter (old : List Parameter) (r : Except Failure (List Parameter)) :
    List Parameter :=
  match r with
  | .ok ps => ps
  | .error _ => old

/-! ## Component state, storage and effects -/

/-- The `toast` state; `shown` is its field `show`. -/
structure Toast where
  shown : Bool
  message : JSString
  deriving DecidableEq, Repr

/-- High surrogates, `0xD800` to `0xDBFF`. -/
def isHighSurrogate (c : Nat) : Bool := decide (55296 ≤ c) && decide (c ≤ 56319)

/-- Low surrogates, `0xDC00` to `0xDFFF`. -/
def isLowSurrogate (c : Nat) : Bool := decide (56320 ≤ c) && decide (c ≤ 57343)

/-- The scalar values of a string (its conversion to a USVString): a surrogate
pair is one code point, an unpaired surrogate becomes U+FFFD. -/
def scalarValues : JSString → List Nat
  | [] => []
  | c :: rest =>
    if isHighSurrogate c then
      match rest with
      | [] => [65533]
      | d :: rest2 =>
        if isLowSurrogate d then
          (65536 + (c - 55296) * 1024 + (d - 56320)) :: scalarValues rest2
        else 65533 :: scalarValues (d :: rest2)
    else if isLowSurrogate c then 65533 :: scalarValues rest
    else c :: scalarValues rest

/-- UTF-8 bytes of one code point. -/
def utf8Char (cp : Nat) : List Nat :=
  if cp < 128 then [cp]
  else if cp < 2048 then [192 + cp / 64, 128 + cp % 64]
  else if cp < 65536 then [224 + cp / 4096, 128 + cp / 64 % 64, 128 + cp % 64]
  else [240 + cp / 262144, 128 + cp / 4096 % 64, 128 + cp / 64 % 64, 128 + cp % 64]

/-- UTF-8 bytes of a sequence of code points. -/
def utf8Encode (cps : List Nat) : List Nat :=
  cps.foldr (fun cp acc => utf8Char cp ++ acc) []

/-- The bytes of `new Blob([s])`. -/
def blobBytes (s : JSString) : List Nat := utf8Encode (scalarValues s)

/-- Reading UTF-8 bytes back into code points: `need` continuation bytes are
still due for the code point whose leading bits are `acc`. -/
def utf8Read : Nat → Nat → List Nat → Option (List Nat)
  | 0, _, [] => some []
  | _ + 1, _, [] => none
  | 0, _, b :: rest =>
    if b < 128 then (utf8Read 0 0 rest).map (fun cps => b :: cps)
    else if b < 224 then utf8Read 1 (b - 192) rest
    else if b < 240 then utf8Read 2 (b - 224) rest
    else utf8Read 3 (b - 240) rest
  | n + 1, acc, b :: rest =>
    if n = 0 then (utf8Read 0 0 rest).map (fun cps => (acc * 64 + (b - 128)) :: cps)
    else utf8Read n (acc * 64 + (b - 128)) rest

/-- Reading UTF-8 bytes back into code points. -/
def utf8Decode (bytes : List Nat) : Option (List Nat) := utf8Read 0 0 bytes

/-- UTF-16 code units of one code point. -/
def utf16Unit (cp : Nat) : List Nat :=
  if cp < 65536 then [cp]
  else [55296 + (cp - 65536) / 1024, 56320 + (cp - 65536) % 1024]

/-- UTF-16 code units of a sequence of code points. -/
def utf16Units (cps : List Nat) : JSString :=
  cps.foldr (fun cp acc => utf16Unit cp ++ acc) []

/-- A well-formed string: 16-bit code units, every surrogate in a pair. -/
def wellFormed : JSString → Bool
  | [] => true
  | c :: rest =>
    if isHighSurrogate c then
      match rest with
      | [] => false
      | d :: rest2 => isLowSurrogate d && wellFormed rest2
    else if isLowSurrogate c then false
    else decide (c < 65536) && wellFormed rest

/-- A file offered for download through the temporary link; `content` is the
bytes of the Blob. -/
structure Download where
  filename : JSString
  mimeType : JSString
  content : List Nat
  deriving DecidableEq, Repr

/-- The contents of `localStorage`. -/
abbrev Storage := List (JSString × JSString)

/-- The call `localStorage.getItem(k)`; `none` is `null`. -/
def getItem (st : Storage) (k : JSString) : Option JSString :=
  match st with
  | [] => none
  | (k1, v) :: rest => if k1 = k then some v else getItem rest k

/-- The call `localStorage.setItem(k, v)`. -/
def setItem (st : Storage) (k v : JSString) : Storage :=
  match st with
  | [] => [(k, v)]
  | (k1, v1) :: rest => if k1 = k then (k, v) :: rest else (k1, v1) :: setItem rest k v

/-- The component state with what the handlers act on: the storage, the
designs passed to the composer and the downloads offered, oldest first. -/
structure World (Blob : Type) where
  parameters : List Parameter
  toast : Toast
  previewHtml : JSString
  storage : Storage
  editorLoads : List Blob
  downloads : List Download

/-- The state of a freshly mounted component over a given storage. -/
def initialWorld (Blob : Type) (storage : Storage) : World Blob where
  parameters :=
    [{ key := utf16 "customer_name", value := utf16 "Amit Kumar" },
     { key := utf16 "plan_type", value := utf16 "Premium" }]
  toast := { shown := false, message := [] }
  previewHtml := []
  storage := storage
  editorLoads := []
  downloads := []

/-- The helper `notify(msg)`. -/
def notify {Blob : Type} (msg : JSString) (w : World Blob) : World Blob :=
  { w with toast := { shown := true, message := msg } }

/-- The storage key of the saved design. -/
def designKey : JSString := utf16 "emailTemplateDesign"

/-- The conversion of the value argument of `setItem` to a string; `none` is
`undefined`. -/
def domString (v : Option JSString) : JSString :=
  match v with
  | some s => s
  | none => utf16 "undefined"

/-- The callback of `saveDesign` (lines 58-61), run on the design the composer
hands over; `stringify` is `JSON.stringify`, `none` when it returns
`undefined`. -/
def saveDesign {Blob : Type} (stringify : Blob → Option JSString) (w : World Blob)
    (design : Blob) : World Blob :=
  notify (utf16 "💾 Template saved successfully")
    { w with storage := setItem w.storage designKey (domString (stringify design)) }

/-- The handler `loadDesign()` (lines 64-72); `parse` is `JSON.parse`, an
error when it throws. -/
def loadDesign {Blob : Type} (parse : JSString → Except Failure Blob) (w : World Blob) :
    Except Failure (World Blob) :=
  match getItem w.storage designKey with
  | none => .ok (notify (utf16 "⚠️ No saved design found") w)
  | some saved =>
    if saved ≠ [] then
      match parse saved with
      | .ok design =>
        .ok (notify (utf16 "♻️ Loaded saved template")
          { w with editorLoads := w.editorLoads ++ [design] })
      | .error e => .error e
    else .ok (notify (utf16 "⚠️ No saved design found") w)

/-- The values on which `JSON.stringify` and `JSON.parse` are given here. -/
inductive JSValue where
  | undefined
  | null
  | bool (b : Bool)
  deriving DecidableEq, Repr

/-- The function `JSON.stringify` on these values; `none` is `undefined`. -/
def jsonStringify : JSValue → Option JSString
  | .undefined => none
  | .null => some (utf16 "null")
  | .bool true => some (utf16 "true")
  | .bool false => some (utf16 "false")

/-- JSON whitespace: tab, line feed, carriage return, space. -/
def isJsonWhitespace (c : Nat) : Bool := c == 9 || c == 10 || c == 13 || c == 32

/-- The code units a JSON value can begin with: a brace, a bracket, a quote, a
minus sign, a digit, and `t`, `f`, `n`. -/
def jsonValueStarts : List Nat :=
  [123, 91, 34, 45, 48, 49, 50, 51, 52, 53, 54, 55, 56, 57, 116, 102, 110]

/-- The function `JSON.parse`: the three literals are read, a text that is
empty or begins with a code unit no JSON value begins with is a SyntaxError,
and any other text is outside the modelled fragment. -/
def jsonParse (text : JSString) : Except Failure JSValue :=
  let body := ((text.dropWhile isJsonWhitespace).reverse.dropWhile isJsonWhitespace).reverse
  if body = utf16 "null" then .ok .null
  else if body = utf16 "true" then .ok (.bool true)
  else if body = utf16 "false" then .ok (.bool false)
  else
    match body with
    | [] => .error .syntaxError
    | c :: _ => if c ∈ jsonValueStarts then .error .unsupported else .error .syntaxError

/-- The callback of `exportHtml(render)` (lines 75-92), run on the markup the
composer hands over. -/
def exportHtml {Blob : Type} (render : Bool) (w : World Blob) (html : JSString) :
    Except Failure (World Blob) :=
  if render then
    match substitute html w.parameters with
    | .ok html1 => .ok (notify (utf16 "👀 Preview updated") { w with previewHtml := html1 })
    | .error e => .error e
  else
    .ok (notify (utf16 "🌐 Exported HTML successfully")
      { w with downloads := w.downloads ++
          [{ filename := utf16 "email_template.html", mimeType := utf16 "text/html",
             content := blobBytes html }] })

/-! ## Keys and values on which the pattern is the literal token -/

/-- The SyntaxCharacters of the pattern grammar: `^ $ \ . * + ? ( ) [ ] { } |`. -/
def syntaxChars : List Nat := [94, 36, 92, 46, 42, 43, 63, 40, 41, 91, 93, 123, 125, 124]

/-- Whether the first code unit is a decimal digit. -/
def startsWithDigit : JSString → Bool
  | [] => false
  | c :: _ => isDigit c

/-- A key without SyntaxCharacter that does not begin with a digit. -/
def PlainKey (k : JSString) : Prop :=
  (∀ c ∈ k, c ∉ syntaxChars) ∧ startsWithDigit k = false

instance (k : JSString) : Decidable (PlainKey k) := by
  unfold PlainKey; infer_instance

/-- A value without the character `$`. -/
def DollarFree (v : JSString) : Prop := 36 ∉ v

instance (v : JSString) : Decidable (DollarFree v) := by
  unfold DollarFree; infer_instance

/-- A value that cannot take part in an occurrence of the token of `k`: it is
non-empty, holds no brace and is not a part of `k`. -/
def ValueAvoids (v k : JSString) : Prop :=
  v ≠ [] ∧ 123 ∉ v ∧ 125 ∉ v ∧ ¬ v <:+: k

instance (v k : JSString) : Decidable (ValueAvoids v k) := by
  unfold ValueAvoids; infer_instance

/-- The compiled form of a pattern in which every code unit stands for itself. -/
def literalTerms (p : JSString) : List Term :=
  p.map (fun c => { atom := Atom.unit c, min := 1, max := some 1, greedy := true })

/-- The code units that the parser reads as an atom for themselves wherever
they stand, provided no quantifier follows. -/
def isLiteralUnit (c : Nat) : Bool :=
  !(c ∈ unsupportedChars) && c != 42 && c != 43 && c != 63 && c != 123 && c != 46

/-! ## Parameter store: theorems -/

theorem filterWithIndex_past (ps : List Parameter) (t j : Nat) (h : t < j) :
    filterWithIndex (fun _ idx => idx != t) j ps = ps := by
  induction ps generalizing j with
  | nil => rfl
  | cons p ps ih =>
    have hne : (j != t) = true := by simp; omega
    simp only [filterWithIndex, hne, if_true]
    rw [ih (j + 1) (by omega)]

theorem filterWithIndex_ne (ps : List Parameter) (k i : Nat) :
    filterWithIndex (fun _ idx => idx != k + i) k ps = ps.eraseIdx i := by
  induction ps generalizing k i with
  | nil => simp [filterWithIndex]
  | cons p ps ih =>
    cases i with
    | zero =>
      simp only [filterWithIndex, Nat.add_zero, bne_self_eq_false, List.eraseIdx_cons_zero]
      exact filterWithIndex_past ps k (k + 1) (by omega)
    | succ i =>
      have hne : (k != k + (i + 1)) = true := by simp
      simp only [filterWithIndex, hne, if_true, List.eraseIdx_cons_succ]
      have h := ih (k + 1) i
      rw [show k + 1 + i = k + (i + 1) by omega] at h
      rw [h]

theorem deleteParameter_eq_eraseIdx (ps : List Parameter) (i : Nat) :
    deleteParameter ps i = ps.eraseIdx i := by
  have h := filterWithIndex_ne ps 0 i
  simp only [Nat.zero_add] at h
  exact h

/-- C7 (as the code behaves): for an index at or past the end of the list,
`handleParamChange` throws a TypeError, and since `setParameters` is never
reached the parameter list stays equal to the original one. -/
theorem handleParamChange_out_of_bounds (ps : List Parameter) (i : Nat) (f : Field)
    (val : JSString) (h : ps.length ≤ i) :
    handleParamChange ps i f val = .error .typeError ∧
      parametersAfter ps (handleParamChange ps i f val) = ps := by
  have hnone : ps[i]? = none := List.getElem?_eq_none h
  simp [handleParamChange, hnone, parametersAfter]

theorem handleParamChange_out_of_bounds_witness :
    [(⟨utf16 "a", utf16 "b"⟩ : Parameter)].length ≤ 1 ∧
    (handleParamChange [⟨utf16 "a", utf16 "b"⟩] 1 Field.value (utf16 "x")
        = .error .typeError ∧
      parametersAfter [⟨utf16 "a", utf16 "b"⟩]
        (handleParamChange [⟨utf16 "a", utf16 "b"⟩] 1 Field.value (utf16 "x"))
        = [⟨utf16 "a", utf16 "b"⟩]) :=
  ⟨by decide, handleParamChange_out_of_bounds [⟨utf16 "a", utf16 "b"⟩] 1 Field.value
    (utf16 "x") (by decide)⟩

/-- C7 fails as stated: on the empty list, index 0, the handler raises an
error instead of returning silently. -/
theorem handleParamChange_silent_counterexample :
    ¬ (∃ r, handleParamChange [] 0 Field.key (utf16 "x") = .ok r) := by
  simp [handleParamChange]

/-- C8: deleting index `i < n` from a list of size `n` leaves `n - 1` entries;
those before `i` keep their position and those from `i` on are the original
entries one position further. -/
theorem deleteParameter_shift (ps : List Parameter) (i : Nat) (h : i < ps.length) :
    (deleteParameter ps i).length = ps.length - 1 ∧
      (∀ j, j < i → (deleteParameter ps i)[j]? = ps[j]?) ∧
      (∀ j, i ≤ j → (deleteParameter ps i)[j]? = ps[j + 1]?) := by
  rw [deleteParameter_eq_eraseIdx]
  refine ⟨List.length_eraseIdx_of_lt h, ?_, ?_⟩
  · intro j hj
    rw [List.getElem?_eraseIdx]
    simp [hj]
  · intro j hj
    rw [List.getElem?_eraseIdx]
    simp [Nat.not_lt.mpr hj]

theorem deleteParameter_shift_witness :
    1 < (initialWorld Unit []).parameters.length ∧
    ((deleteParameter (initialWorld Unit []).parameters 1).length
        = (initialWorld Unit []).parameters.length - 1 ∧
      (∀ j, j < 1 → (deleteParameter (initialWorld Unit []).parameters 1)[j]?
        = (initialWorld Unit []).parameters[j]?) ∧
      (∀ j, 1 ≤ j → (deleteParameter (initialWorld Unit []).parameters 1)[j]?
        = (initialWorld Unit []).parameters[j + 1]?)) :=
  ⟨by decide, deleteParameter_shift (initialWorld Unit []).parameters 1 (by decide)⟩

/-- C9: on a list `s` of length `n`, `addParameter` followed by
`handleParamChange(n, "key", k)` and `handleParamChange(n, "value", v)` runs
without error and yields a list of length `n + 1` whose entry `n` is
`{key: k, value: v}` and whose first `n` entries are those of `s`. -/
theorem add_then_set_fields (s : List Parameter) (k v : JSString) :
    ∃ s1 s2, handleParamChange (addParameter s) s.length Field.key k = .ok s1 ∧
      handleParamChange s1 s.length Field.value v = .ok s2 ∧
      s2.length = s.length + 1 ∧
      s2[s.length]? = some { key := k, value := v } ∧
      s2.take s.length = s := by
  refine ⟨s ++ [{ key := k, value := [] }], s ++ [{ key := k, value := v }], ?_, ?_, ?_, ?_, ?_⟩
  · simp [handleParamChange, addParameter, setField]
  · simp [handleParamChange, setField]
  · simp
  · simp
  · simp

/-! ## Persistence and export: theorems -/

theorem getItem_setItem (st : Storage) (k v : JSString) :
    getItem (setItem st k v) k = some v := by
  induction st with
  | nil => simp [setItem, getItem]
  | cons e rest ih =>
    obtain ⟨k1, v1⟩ := e
    by_cases h : k1 = k
    · simp [setItem, getItem, h]
    · simp [setItem, getItem, h, ih]

theorem getItem_setItem_of_ne (st : Storage) (k k2 v : JSString) (h : k2 ≠ k) :
    getItem (setItem st k v) k2 = getItem st k2 := by
  have hkk : ¬ k = k2 := fun e => h e.symm
  induction st with
  | nil => simp [setItem, getItem, hkk]
  | cons e rest ih =>
    obtain ⟨k1, v1⟩ := e
    by_cases h1 : k1 = k
    · subst h1
      simp [setItem, getItem, hkk]
    · by_cases h2 : k1 = k2
      · subst h2
        simp [setItem, getItem, h1]
      · simp [setItem, getItem, h1, h2, ih]

/-- C6 (as the code behaves): let `b` be a design that `JSON.stringify` turns
into a non-empty text `t` and that `JSON.parse` reads back from `t`.  After
the save callback on `b` the slot `"emailTemplateDesign"` holds exactly `t`
and every other slot is as before; a load with no save in between hands `b`
itself to the composer, also when an earlier save of `b0` had filled the slot;
and a load hands `b` over from any storage whose slot
`"emailTemplateDesign"` holds `t`. -/
theorem save_then_load {Blob : Type} (stringify : Blob → Option JSString)
    (parse : JSString → Except Failure Blob) (w : World Blob) (b0 b : Blob) (t : JSString)
    (hs : stringify b = some t) (hne : t ≠ []) (hround : parse t = .ok b) :
    getItem (saveDesign stringify w b).storage (utf16 "emailTemplateDesign") = some t ∧
      (∀ k, k ≠ utf16 "emailTemplateDesign" →
        getItem (saveDesign stringify w b).storage k = getItem w.storage k) ∧
      (loadDesign parse (saveDesign stringify w b)).map (fun w1 => w1.editorLoads)
        = .ok (w.editorLoads ++ [b]) ∧
      (loadDesign parse (saveDesign stringify (saveDesign stringify w b0) b)).map
        (fun w1 => w1.editorLoads) = .ok (w.editorLoads ++ [b]) ∧
      (∀ w2 : World Blob, getItem w2.storage (utf16 "emailTemplateDesign") = some t →
        (loadDesign parse w2).map (fun w1 => w1.editorLoads) = .ok (w2.editorLoads ++ [b])) := by
  have hkey : designKey = utf16 "emailTemplateDesign" := rfl
  refine ⟨?_, ?_, ?_, ?_, ?_⟩
  · simp [saveDesign, notify, hkey, getItem_setItem, hs, domString]
  · intro k hk
    simp only [saveDesign, notify, hkey]
    exact getItem_setItem_of_ne _ _ _ _ hk
  · simp [loadDesign, saveDesign, notify, getItem_setItem, hs, domString, hround, hne,
      Except.map]
  · simp [loadDesign, saveDesign, notify, getItem_setItem, hs, domString, hround, hne,
      Except.map]
  · intro w2 h2
    simp [loadDesign, hkey, h2, hround, hne, Except.map, notify]

theorem save_then_load_witness :
    jsonParse (utf16 "true") = .ok (JSValue.bool true) ∧
    (getItem (saveDesign jsonStringify (initialWorld JSValue []) (JSValue.bool true)).storage
        (utf16 "emailTemplateDesign") = some (utf16 "true") ∧
      (∀ k, k ≠ utf16 "emailTemplateDesign" →
        getItem (saveDesign jsonStringify (initialWorld JSValue []) (JSValue.bool true)).storage k
          = getItem (initialWorld JSValue []).storage k) ∧
      (loadDesign jsonParse
          (saveDesign jsonStringify (initialWorld JSValue []) (JSValue.bool true))).map
        (fun w1 => w1.editorLoads)
        = .ok ((initialWorld JSValue []).editorLoads ++ [JSValue.bool true]) ∧
      (loadDesign jsonParse (saveDesign jsonStringify
          (saveDesign jsonStringify (initialWorld JSValue []) JSValue.null)
          (JSValue.bool true))).map (fun w1 => w1.editorLoads)
        = .ok ((initialWorld JSValue []).editorLoads ++ [JSValue.bool true]) ∧
      (∀ w2 : World JSValue, getItem w2.storage (utf16 "emailTemplateDesign")
          = some (utf16 "true") →
        (loadDesign jsonParse w2).map (fun w1 => w1.editorLoads)
          = .ok (w2.editorLoads ++ [JSValue.bool true]))) :=
  ⟨by decide, save_then_load jsonStringify jsonParse (initialWorld JSValue []) JSValue.null
    (JSValue.bool true) (utf16 "true") (by decide) (by decide) (by decide)⟩

/-- C6 fails as stated: when the composer hands over `undefined`,
`JSON.stringify` returns `undefined`, the slot receives the text `undefined`,
and the next load throws the SyntaxError of `JSON.parse` without handing
anything to the composer. -/
theorem save_then_load_counterexample :
    getItem (saveDesign jsonStringify (initialWorld JSValue []) JSValue.undefined).storage
        (utf16 "emailTemplateDesign") = some (utf16 "undefined") ∧
      (loadDesign jsonParse
          (saveDesign jsonStringify (initialWorld JSValue []) JSValue.undefined)).map
        (fun w1 => w1.editorLoads) = .error Failure.syntaxError := by
  decide

theorem utf8Read_lead (a b : Nat) (rest : List Nat) :
    utf8Read 0 a (b :: rest) =
      if b < 128 then (utf8Read 0 0 rest).map (fun cps => b :: cps)
      else if b < 224 then utf8Read 1 (b - 192) rest
      else if b < 240 then utf8Read 2 (b - 224) rest
      else utf8Read 3 (b - 240) rest := by
  rw [utf8Read]

theorem utf8Read_last (acc b : Nat) (rest : List Nat) :
    utf8Read 1 acc (b :: rest)
      = (utf8Read 0 0 rest).map (fun cps => (acc * 64 + (b - 128)) :: cps) := by
  rw [utf8Read]; rfl

theorem utf8Read_more (n acc b : Nat) (rest : List Nat) :
    utf8Read (n + 2) acc (b :: rest) = utf8Read (n + 1) (acc * 64 + (b - 128)) rest := by
  rw [utf8Read]; simp

theorem utf8Decode_utf8Encode (cps : List Nat) : utf8Decode (utf8Encode cps) = some cps := by
  show utf8Read 0 0 (utf8Encode cps) = some cps
  induction cps with
  | nil => rfl
  | cons cp cps ih =>
    have hcons : utf8Encode (cp :: cps) = utf8Char cp ++ utf8Encode cps := rfl
    rw [hcons]
    by_cases h1 : cp < 128
    · have hu : utf8Char cp = [cp] := by rw [utf8Char, if_pos h1]
      rw [hu, List.singleton_append, utf8Read_lead, if_pos h1, ih]
      rfl
    · by_cases h2 : cp < 2048
      · have hu : utf8Char cp = [192 + cp / 64, 128 + cp % 64] := by
          rw [utf8Char, if_neg h1, if_pos h2]
        have ha : ¬ (192 + cp / 64 < 128) := by omega
        have hb : 192 + cp / 64 < 224 := by omega
        have hc : (192 + cp / 64 - 192) * 64 + (128 + cp % 64 - 128) = cp := by omega
        rw [hu]
        show utf8Read 0 0 ((192 + cp / 64) :: (128 + cp % 64) :: utf8Encode cps) = _
        rw [utf8Read_lead, if_neg ha, if_pos hb, utf8Read_last, ih, hc]
        rfl
      · by_cases h3 : cp < 65536
        · have hu : utf8Char cp = [224 + cp / 4096, 128 + cp / 64 % 64, 128 + cp % 64] := by
            rw [utf8Char, if_neg h1, if_neg h2, if_pos h3]
          have ha : ¬ (224 + cp / 4096 < 128) := by omega
          have hb : ¬ (224 + cp / 4096 < 224) := by omega
          have hb2 : 224 + cp / 4096 < 240 := by omega
          have hc : ((224 + cp / 4096 - 224) * 64 + (128 + cp / 64 % 64 - 128)) * 64
              + (128 + cp % 64 - 128) = cp := by omega
          rw [hu]
          show utf8Read 0 0 ((224 + cp / 4096) :: (128 + cp / 64 % 64) :: (128 + cp % 64)
            :: utf8Encode cps) = _
          rw [utf8Read_lead, if_neg ha, if_neg hb, if_pos hb2, utf8Read_more, utf8Read_last,
            ih, hc]
          rfl
        · have hu : utf8Char cp = [240 + cp / 262144, 128 + cp / 4096 % 64,
              128 + cp / 64 % 64, 128 + cp % 64] := by
            rw [utf8Char, if_neg h1, if_neg h2, if_neg h3]
          have ha : ¬ (240 + cp / 262144 < 128) := by omega
          have hb : ¬ (240 + cp / 262144 < 224) := by omega
          have hb2 : ¬ (240 + cp / 262144 < 240) := by omega
          have hc : (((240 + cp / 262144 - 240) * 64 + (128 + cp / 4096 % 64 - 128)) * 64
              + (128 + cp / 64 % 64 - 128)) * 64 + (128 + cp % 64 - 128) = cp := by omega
          rw [hu]
          show utf8Read 0 0 ((240 + cp / 262144) :: (128 + cp / 4096 % 64)
            :: (128 + cp / 64 % 64) :: (128 + cp % 64) :: utf8Encode cps) = _
          rw [utf8Read_lead, if_neg ha, if_neg hb, if_neg hb2, utf8Read_more, utf8Read_more,
            utf8Read_last, ih, hc]
          rfl
theorem isHighSurrogate_iff (c : Nat) : isHighSurrogate c = true ↔ 55296 ≤ c ∧ c ≤ 56319 := by
  unfold isHighSurrogate
  rw [Bool.and_eq_true, decide_eq_true_eq, decide_eq_true_eq]

theorem isLowSurrogate_iff (c : Nat) : isLowSurrogate c = true ↔ 56320 ≤ c ∧ c ≤ 57343 := by
  unfold isLowSurrogate
  rw [Bool.and_eq_true, decide_eq_true_eq, decide_eq_true_eq]

theorem wellFormed_pair (c d : Nat) (rest : JSString) (hc : isHighSurrogate c = true) :
    wellFormed (c :: d :: rest) = (isLowSurrogate d && wellFormed rest) := by
  rw [wellFormed, if_pos hc]

theorem wellFormed_lone (c : Nat) (hc : isHighSurrogate c = true) :
    wellFormed [c] = false := by
  rw [wellFormed, if_pos hc]

theorem wellFormed_plain (c : Nat) (rest : JSString) (hc : ¬ isHighSurrogate c = true) :
    wellFormed (c :: rest)
      = (if isLowSurrogate c then false else decide (c < 65536) && wellFormed rest) := by
  cases rest <;> simp [wellFormed, hc]

theorem scalarValues_pair (c d : Nat) (rest : JSString) (hc : isHighSurrogate c = true)
    (hd : isLowSurrogate d = true) :
    scalarValues (c :: d :: rest)
      = (65536 + (c - 55296) * 1024 + (d - 56320)) :: scalarValues rest := by
  rw [scalarValues, if_pos hc]
  simp only [hd, if_true]

theorem scalarValues_plain (c : Nat) (rest : JSString) (hc : ¬ isHighSurrogate c = true)
    (hl : ¬ isLowSurrogate c = true) :
    scalarValues (c :: rest) = c :: scalarValues rest := by
  cases rest <;> simp [scalarValues, hc, hl]

theorem utf16Unit_pair (c d : Nat) (hc : 55296 ≤ c ∧ c ≤ 56319) (hd : 56320 ≤ d ∧ d ≤ 57343) :
    utf16Unit (65536 + (c - 55296) * 1024 + (d - 56320)) = [c, d] := by
  have h1 : ¬ (65536 + (c - 55296) * 1024 + (d - 56320) < 65536) := by omega
  have h2 : 55296 + (65536 + (c - 55296) * 1024 + (d - 56320) - 65536) / 1024 = c := by omega
  have h3 : 56320 + (65536 + (c - 55296) * 1024 + (d - 56320) - 65536) % 1024 = d := by omega
  rw [utf16Unit, if_neg h1, h2, h3]

theorem utf16Units_cons (cp : Nat) (cps : List Nat) :
    utf16Units (cp :: cps) = utf16Unit cp ++ utf16Units cps := rfl

theorem utf16Units_scalarValues (m : JSString) (hm : wellFormed m = true) :
    utf16Units (scalarValues m) = m := by
  have key : ∀ n (m : JSString), m.length ≤ n → wellFormed m = true →
      utf16Units (scalarValues m) = m := by
    intro n
    induction n with
    | zero =>
      intro m hlen _
      have : m = [] := List.length_eq_zero.mp (Nat.le_zero.mp hlen)
      subst this
      rfl
    | succ n ih =>
      intro m hlen hwf
      cases m with
      | nil => rfl
      | cons c rest =>
        by_cases hh : isHighSurrogate c = true
        · cases rest with
          | nil =>
            rw [wellFormed_lone c hh] at hwf
            exact absurd hwf (by decide)
          | cons d rest2 =>
            rw [wellFormed_pair c d rest2 hh, Bool.and_eq_true] at hwf
            have hlen2 : rest2.length ≤ n := by
              simp only [List.length_cons] at hlen
              omega
            rw [scalarValues_pair c d rest2 hh hwf.1, utf16Units_cons,
              utf16Unit_pair c d ((isHighSurrogate_iff c).mp hh) ((isLowSurrogate_iff d).mp hwf.1),
              ih rest2 hlen2 hwf.2]
            rfl
        · rw [wellFormed_plain c rest hh] at hwf
          by_cases hl : isLowSurrogate c = true
          · rw [if_pos hl] at hwf
            exact absurd hwf (by decide)
          · rw [if_neg hl, Bool.and_eq_true, decide_eq_true_eq] at hwf
            have hlen2 : rest.length ≤ n := by
              simp only [List.length_cons] at hlen
              omega
            rw [scalarValues_plain c rest hh hl, utf16Units_cons, utf16Unit, if_pos hwf.1,
              ih rest hlen2 hwf.2]
            rfl
  exact key m.length m (Nat.le_refl _) hm
/-- C10 (as the code behaves): whatever the parameter list `ps`,
`exportHtml(false)` on markup `m` succeeds and offers one more download, named
`email_template.html`, of type `text/html`, holding the bytes of the Blob made
of `m`; the stored preview and the parameters are as before.  When `m` is
well-formed these bytes are the UTF-8 text of `m` itself: read back, they give
`m`. -/
theorem exportHtml_download {Blob : Type} (w : World Blob) (ps : List Parameter)
    (m : JSString) (hm : wellFormed m = true) :
    ∃ w1, exportHtml false { w with parameters := ps } m = .ok w1 ∧
      w1.downloads = w.downloads ++
        [{ filename := utf16 "email_template.html", mimeType := utf16 "text/html",
           content := blobBytes m }] ∧
      (utf8Decode (blobBytes m)).map utf16Units = some m ∧
      w1.previewHtml = w.previewHtml ∧ w1.parameters = ps := by
  refine ⟨_, rfl, ?_, ?_, ?_, ?_⟩
  · simp [notify]
  · simp [blobBytes, utf8Decode_utf8Encode, utf16Units_scalarValues m hm]
  · simp [notify]
  · simp [notify]

theorem exportHtml_download_witness :
    wellFormed (utf16 "Hello " ++ token (utf16 "customer_name") ++ utf16 " 😀") = true ∧
    ∃ w1, exportHtml false
        { initialWorld Unit [] with parameters := [⟨utf16 "customer_name", utf16 "Zoë"⟩] }
        (utf16 "Hello " ++ token (utf16 "customer_name") ++ utf16 " 😀") = .ok w1 ∧
      w1.downloads = (initialWorld Unit []).downloads ++
        [{ filename := utf16 "email_template.html", mimeType := utf16 "text/html",
           content := blobBytes (utf16 "Hello " ++ token (utf16 "customer_name") ++ utf16 " 😀") }] ∧
      (utf8Decode (blobBytes (utf16 "Hello " ++ token (utf16 "customer_name") ++ utf16 " 😀"))).map
        utf16Units = some (utf16 "Hello " ++ token (utf16 "customer_name") ++ utf16 " 😀") ∧
      w1.previewHtml = (initialWorld Unit []).previewHtml ∧
      w1.parameters = [⟨utf16 "customer_name", utf16 "Zoë"⟩] :=
  ⟨by decide, exportHtml_download (initialWorld Unit []) [⟨utf16 "customer_name", utf16 "Zoë"⟩]
    (utf16 "Hello " ++ token (utf16 "customer_name") ++ utf16 " 😀") (by decide)⟩

/-- C10 fails as stated: for the markup made of one unpaired surrogate the
download holds the bytes `EF BF BD` of U+FFFD, the same artifact as for the
markup U+FFFD, and reading it back does not give the markup. -/
theorem exportHtml_download_counterexample :
    (exportHtml false (initialWorld Unit []) [55296]).map (fun w1 => w1.downloads)
        = .ok [{ filename := utf16 "email_template.html", mimeType := utf16 "text/html",
                 content := [239, 191, 189] }] ∧
      (exportHtml false (initialWorld Unit []) [55296]).map (fun w1 => w1.downloads)
        = (exportHtml false (initialWorld Unit []) [65533]).map (fun w1 => w1.downloads) ∧
      (utf8Decode (blobBytes [55296])).map utf16Units = some [65533] ∧
      ([55296] : JSString) ≠ [65533] := by
  decide

/-! ## The pattern of a plain key is the literal token -/

theorem parseQuantifierPrefix_of_literal (c : Nat) (rest : JSString)
    (h : isLiteralUnit c = true) : parseQuantifierPrefix (c :: rest) = none := by
  simp only [isLiteralUnit, Bool.and_eq_true, bne_iff_ne, ne_eq] at h
  obtain ⟨⟨⟨⟨⟨_, h42⟩, h43⟩, h63⟩, h123⟩, _⟩ := h
  simp [parseQuantifierPrefix, h42, h43, h63, h123]

theorem parseTerms_literal (s : JSString) (fuel : Nat) (hfuel : s.length < fuel)
    (h : ∀ c ∈ s, isLiteralUnit c = true) :
    parseTerms fuel s = .ok (literalTerms s) := by
  induction s generalizing fuel with
  | nil =>
    cases fuel with
    | zero => simp at hfuel
    | succ fuel => rfl
  | cons c rest ih =>
    cases fuel with
    | zero => simp at hfuel
    | succ fuel =>
      have hc := h c (List.mem_cons_self c rest)
      have hrest : ∀ d ∈ rest, isLiteralUnit d = true :=
        fun d hd => h d (List.mem_cons_of_mem c hd)
      have ih1 := ih fuel (by simpa using hfuel) hrest
      have hq : parseQuantifierPrefix rest = none := by
        cases rest with
        | nil => rfl
        | cons d r =>
          exact parseQuantifierPrefix_of_literal d r (hrest d (List.mem_cons_self d r))
      simp only [isLiteralUnit, Bool.and_eq_true, bne_iff_ne, ne_eq, Bool.not_eq_true',
        decide_eq_false_iff_not] at hc
      obtain ⟨⟨⟨⟨⟨hu, h42⟩, h43⟩, h63⟩, h123⟩, h46⟩ := hc
      simp [parseTerms, hu, h42, h43, h63, h123, h46, hq, ih1, literalTerms]

theorem parseBraces_of_not_digit (s : JSString) (h : startsWithDigit s = false) :
    parseBraces s = none := by
  cases s with
  | nil => rfl
  | cons c r =>
    simp only [startsWithDigit] at h
    simp [parseBraces, List.span, List.span.loop, h]

theorem isLiteralUnit_of_not_syntax (c : Nat) (h : c ∉ syntaxChars) :
    isLiteralUnit c = true := by
  simp only [syntaxChars, List.mem_cons, List.mem_singleton, not_or, List.not_mem_nil,
    or_false] at h
  simp [isLiteralUnit, unsupportedChars]
  omega

theorem startsWithDigit_append_braces (k : JSString) (h : startsWithDigit k = false) :
    startsWithDigit (k ++ [125, 125]) = false := by
  cases k with
  | nil => decide
  | cons c r => simpa [startsWithDigit] using h

theorem parseTerms_open_brace (fuel : Nat) (rest : JSString) (ts : List Term)
    (hb : parseBraces rest = none) (hq : parseQuantifierPrefix rest = none)
    (hrest : parseTerms fuel rest = .ok ts) :
    parseTerms (fuel + 1) (123 :: rest)
      = .ok ({ atom := Atom.unit 123, min := 1, max := some 1, greedy := true } :: ts) := by
  simp [parseTerms, unsupportedChars, hb, hq, hrest]

theorem parsePattern_token (k : JSString) (hk : PlainKey k) :
    parsePattern (token k) = .ok (literalTerms (token k)) := by
  obtain ⟨hchars, hdigit⟩ := hk
  have hbody : ∀ c ∈ k ++ [125, 125], isLiteralUnit c = true := by
    intro c hc
    rcases List.mem_append.mp hc with hc | hc
    · exact isLiteralUnit_of_not_syntax c (hchars c hc)
    · simp only [List.mem_cons, List.mem_singleton, List.not_mem_nil, or_false, or_self] at hc
      subst hc
      decide
  have hb1 : parseBraces (k ++ [125, 125]) = none :=
    parseBraces_of_not_digit _ (startsWithDigit_append_braces k hdigit)
  have hb2 : parseBraces (123 :: (k ++ [125, 125])) = none :=
    parseBraces_of_not_digit _ rfl
  have hq1 : parseQuantifierPrefix (k ++ [125, 125]) = none := by
    cases k with
    | nil => decide
    | cons c r =>
      exact parseQuantifierPrefix_of_literal c _ (hbody c (by simp))
  have hq2 : parseQuantifierPrefix (123 :: (k ++ [125, 125])) = none := by
    simp [parseQuantifierPrefix, hb1]
  have hrest := parseTerms_literal (k ++ [125, 125]) (k.length + 3) (by simp) hbody
  have h1 := parseTerms_open_brace _ _ _ hb1 hq1 hrest
  have h2 := parseTerms_open_brace _ _ _ hb2 hq2 h1
  have hlen : (token k).length + 1 = k.length + 3 + 1 + 1 := by simp [token]
  rw [parsePattern, hlen]
  exact h2

theorem matchRep_zero (ok : Nat → Bool) (k : JSString → Option Nat) (greedy : Bool)
    (min : Nat) (s : JSString) : matchRep ok k greedy min (some 0) s = k s := by
  cases s <;> simp [matchRep]

theorem matchTerms_literal (p s : JSString) :
    matchTerms (literalTerms p) s = if p <+: s then some p.length else none := by
  induction p generalizing s with
  | nil => simp [literalTerms, matchTerms]
  | cons c p ih =>
    cases s with
    | nil => simp [literalTerms, matchTerms, matchRep]
    | cons d ds =>
      have ih1 := ih ds
      simp only [literalTerms] at ih1
      simp only [literalTerms, List.map_cons, matchTerms, matchRep, atomMatches,
        Option.map_some', matchRep_zero, ih1, List.cons_prefix_cons]
      by_cases hdc : d = c
      · subst hdc
        by_cases hp : p <+: ds <;> simp [hp, matchRep_zero, ih1]
      · have hcd : ¬ c = d := fun h => hdc h.symm
        simp [hdc, hcd]

theorem getSubstitution_dollarFree (matched before after rep : JSString)
    (h : DollarFree rep) : getSubstitution matched before after rep = rep := by
  induction rep with
  | nil => rfl
  | cons c rest ih =>
    have hc : c ≠ 36 := fun hc => h (by simp [hc])
    have hrest : DollarFree rest := fun hm => h (List.mem_cons_of_mem c hm)
    unfold getSubstitution
    simp [hc, ih hrest]

theorem replaceLoop_literal (p rep : JSString) (hp : p ≠ []) (hrep : DollarFree rep)
    (pre : JSString) (skip : Nat) (s : JSString) :
    replaceLoop (literalTerms p) rep pre skip s = literalReplace p rep skip s := by
  induction s generalizing pre skip with
  | nil =>
    cases skip with
    | zero =>
      have hnp : ¬ p <+: [] := by simpa using hp
      simp [replaceLoop, literalReplace, matchTerms_literal, hnp]
    | succ skip => simp [replaceLoop, literalReplace]
  | cons c cs ih =>
    cases skip with
    | succ skip => simp [replaceLoop, literalReplace, ih]
    | zero =>
      obtain ⟨n, hn⟩ : ∃ n, p.length = n + 1 := by
        cases p with
        | nil => exact absurd rfl hp
        | cons a p => exact ⟨p.length, rfl⟩
      by_cases hpre : p <+: c :: cs
      · simp [replaceLoop, literalReplace, matchTerms_literal, hpre, hn, ih,
          getSubstitution_dollarFree _ _ _ _ hrep]
      · simp [replaceLoop, literalReplace, matchTerms_literal, hpre, ih]

theorem orEmpty_eq (v : JSString) : orEmpty v = v := by
  unfold orEmpty
  split
  · next h => exact h.symm
  · rfl

theorem token_ne_nil (k : JSString) : token k ≠ [] := by simp [token]

theorem regexReplace_plain (k v s : JSString) (hk : PlainKey k) (hv : DollarFree v) :
    regexReplace (token k) (orEmpty v) s = .ok (literalReplace (token k) v 0 s) := by
  simp only [regexReplace, parsePattern_token k hk, orEmpty_eq]
  rw [replaceLoop_literal (token k) v (token_ne_nil k) hv]

/-- On parameters whose keys are plain and whose values hold no `$`, the
loop of `exportHtml(true)` succeeds and computes the literal substitution. -/
theorem substitute_eq_specSubstitute (ps : List Parameter) (m : JSString)
    (hk : ∀ p ∈ ps, PlainKey p.key) (hv : ∀ p ∈ ps, DollarFree p.value) :
    substitute m ps = .ok (specSubstitute m ps) := by
  induction ps generalizing m with
  | nil => rfl
  | cons p ps ih =>
    have h1 := regexReplace_plain p.key p.value m (hk p (List.mem_cons_self p ps))
      (hv p (List.mem_cons_self p ps))
    simp only [substitute, h1, specSubstitute, List.foldl_cons]
    exact ih _ (fun q hq => hk q (List.mem_cons_of_mem p hq))
      (fun q hq => hv q (List.mem_cons_of_mem p hq))

/-! ## The literal replacement -/

theorem literalReplace_nil (p r : JSString) : literalReplace p r 0 [] = [] := rfl

theorem literalReplace_skip (p r x s : JSString) :
    literalReplace p r x.length (x ++ s) = literalReplace p r 0 s := by
  induction x with
  | nil => rfl
  | cons a x ih => simpa [literalReplace] using ih

theorem literalReplace_hit (p r s : JSString) (hp : p ≠ []) :
    literalReplace p r 0 (p ++ s) = r ++ literalReplace p r 0 s := by
  cases p with
  | nil => exact absurd rfl hp
  | cons a p =>
    have hpre : (a :: p) <+: a :: (p ++ s) := List.prefix_append (a :: p) s
    have h1 : literalReplace (a :: p) r 0 (a :: (p ++ s))
        = r ++ literalReplace (a :: p) r p.length (p ++ s) := by
      simp [literalReplace, hpre]
    rw [List.cons_append, h1, literalReplace_skip]

theorem literalReplace_miss (p r : JSString) (c : Nat) (s : JSString)
    (h : ¬ p <+: c :: s) :
    literalReplace p r 0 (c :: s) = c :: literalReplace p r 0 s := by
  simp [literalReplace, h]

/-- Case analysis along the scan: the text is empty, or starts with the
pattern, or starts with a code unit at which the pattern does not match. -/
theorem scan_induction (p : JSString) (hp : p ≠ []) (motive : JSString → Prop)
    (nil : motive [])
    (hit : ∀ s, motive s → motive (p ++ s))
    (miss : ∀ c s, ¬ p <+: c :: s → motive s → motive (c :: s)) :
    ∀ s, motive s := by
  have key : ∀ n (s : JSString), s.length ≤ n → motive s := by
    intro n
    induction n with
    | zero =>
      intro s hs
      have : s = [] := List.length_eq_zero.mp (Nat.le_zero.mp hs)
      subst this
      exact nil
    | succ n ih =>
      intro s hs
      cases s with
      | nil => exact nil
      | cons c cs =>
        by_cases hpre : p <+: c :: cs
        · obtain ⟨t, ht⟩ := hpre
          rw [← ht]
          apply hit
          apply ih
          have hlen : (p ++ t).length = (c :: cs).length := by rw [ht]
          have hpl : 0 < p.length := List.length_pos.mpr hp
          simp only [List.length_append, List.length_cons] at hlen hs
          omega
        · exact miss c cs hpre (ih cs (by simpa using hs))
  exact fun s => key s.length s (Nat.le_refl _)

theorem literalReplace_of_absent (p r s : JSString) (h : ¬ p <:+: s) :
    literalReplace p r 0 s = s := by
  induction s with
  | nil => rfl
  | cons c cs ih =>
    have h1 : ¬ p <+: c :: cs := fun hpre => h hpre.isInfix
    have h2 : ¬ p <:+: cs := fun hin => h (hin.trans (List.suffix_cons c cs).isInfix)
    rw [literalReplace_miss p r c cs h1, ih h2]

theorem prefix_append_cases (t u w : JSString) (h : t <+: u ++ w) :
    t <+: u ∨ ∃ q, q ≠ [] ∧ t = u ++ q ∧ q <+: w := by
  rcases List.prefix_or_prefix_of_prefix h (List.prefix_append u w) with h1 | h1
  · exact Or.inl h1
  · obtain ⟨q, hq⟩ := h1
    subst hq
    by_cases hqn : q = []
    · subst hqn
      left
      simp
    · exact Or.inr ⟨q, hqn, rfl, (List.prefix_append_right_inj u).mp h⟩

/-- A text absent before a replacement is absent after it, when no occurrence
of that text can touch an inserted value. -/
theorem not_infix_literalReplace (p r t : JSString) (hp : p ≠ [])
    (hsplit : ∀ x y, t <:+: x ++ (r ++ y) → t <:+: x ∨ t <:+: y)
    (s x : JSString) (h : ¬ t <:+: x ++ s) :
    ¬ t <:+: x ++ literalReplace p r 0 s := by
  revert x
  refine scan_induction p hp (fun s => ∀ x, ¬ t <:+: x ++ s →
    ¬ t <:+: x ++ literalReplace p r 0 s) ?_ ?_ ?_ s
  · intro x h
    simpa [literalReplace_nil] using h
  · intro s ih x h hin
    rw [literalReplace_hit p r s hp] at hin
    rcases hsplit x _ hin with h1 | h1
    · exact h (h1.trans (List.prefix_append x _).isInfix)
    · have h2 : ¬ t <:+: [] ++ s := by
        intro h3
        apply h
        have h4 : t <:+: s := by simpa using h3
        have h5 : s <:+ x ++ (p ++ s) := by
          rw [← List.append_assoc]
          exact List.suffix_append (x ++ p) s
        exact h4.trans h5.isInfix
      exact ih [] h2 (by simpa using h1)
  · intro c s hmiss ih x h hin
    rw [literalReplace_miss p r c s hmiss] at hin
    have h2 : ¬ t <:+: (x ++ [c]) ++ s := by simpa using h
    exact ih (x ++ [c]) h2 (by simpa using hin)

theorem not_infix_of_no_start (p x s : JSString) (hp : p ≠ [])
    (h : ∀ a u, x = a ++ u → u ≠ [] → ¬ p <+: u ++ s) : ¬ p <:+: x := by
  rintro ⟨a, b, hab⟩
  refine h a (p ++ b) (by rw [← hab, List.append_assoc]) (by simp [hp]) ?_
  rw [List.append_assoc]
  exact List.prefix_append p _

/-- After the replacement of `p` by a value that no occurrence of `p` can
touch, no occurrence of `p` is left, also across the text `x` before the
scanned part when no occurrence began in `x`. -/
theorem pattern_gone_after (p r : JSString) (hp : p ≠ [])
    (hsplit : ∀ x y, p <:+: x ++ (r ++ y) → p <:+: x ∨ p <:+: y) (s x : JSString)
    (h : ∀ a u, x = a ++ u → u ≠ [] → ¬ p <+: u ++ s) :
    ¬ p <:+: x ++ literalReplace p r 0 s := by
  revert x
  refine scan_induction p hp (fun s => ∀ x,
    (∀ a u, x = a ++ u → u ≠ [] → ¬ p <+: u ++ s) →
    ¬ p <:+: x ++ literalReplace p r 0 s) ?_ ?_ ?_ s
  · intro x h
    simpa [literalReplace_nil] using not_infix_of_no_start p x [] hp h
  · intro s ih x h hin
    rw [literalReplace_hit p r s hp] at hin
    rcases hsplit x _ hin with h1 | h1
    · exact not_infix_of_no_start p x (p ++ s) hp h h1
    · refine ih [] ?_ (by simpa using h1)
      intro a u hau hu
      have : u = [] := (List.append_eq_nil.mp hau.symm).2
      exact absurd this hu
  · intro c s hmiss ih x h hin
    rw [literalReplace_miss p r c s hmiss] at hin
    refine ih (x ++ [c]) ?_ (by simpa using hin)
    intro a u hau hu
    rcases List.eq_nil_or_concat u with hnil | ⟨u1, d, hud⟩
    · exact absurd hnil hu
    · subst hud
      have hau1 : x ++ [c] = (a ++ u1) ++ [d] := by simpa using hau
      have hxa : x = a ++ u1 := List.append_inj_left' hau1 rfl
      have hcd : [c] = [d] := List.append_inj_right' hau1 rfl
      have hcd1 : c = d := by simpa using hcd
      subst hcd1
      by_cases hu1 : u1 = []
      · subst hu1
        simpa using hmiss
      · have := h a u1 hxa hu1
        simpa using this

/-- The replacement passes over an occurrence of `t` that no occurrence of
the pattern overlaps: the parts before and after are replaced on their own. -/
theorem literalReplace_around (p r t : JSString) (hp : p ≠ [])
    (hover : ∀ a b, p <+: a ++ (t ++ b) → p <+: a)
    (hinside : ∀ w u b, t = w ++ u → u ≠ [] → ¬ p <+: u ++ b) (a b : JSString) :
    literalReplace p r 0 (a ++ (t ++ b))
      = literalReplace p r 0 a ++ (t ++ literalReplace p r 0 b) := by
  have inner : ∀ u w, t = w ++ u →
      literalReplace p r 0 (u ++ b) = u ++ literalReplace p r 0 b := by
    intro u
    induction u with
    | nil => intro w _; rfl
    | cons c u ih =>
      intro w hw
      have hmiss : ¬ p <+: c :: (u ++ b) := by
        simpa using hinside w (c :: u) b hw (by simp)
      rw [List.cons_append, literalReplace_miss p r c _ hmiss, ih (w ++ [c]) (by simpa using hw),
        List.cons_append]
  refine scan_induction p hp (fun a => literalReplace p r 0 (a ++ (t ++ b))
      = literalReplace p r 0 a ++ (t ++ literalReplace p r 0 b)) ?_ ?_ ?_ a
  · simpa [literalReplace_nil] using inner t [] rfl
  · intro s ih
    rw [List.append_assoc, literalReplace_hit p r _ hp, literalReplace_hit p r _ hp, ih,
      List.append_assoc]
  · intro c s hmiss ih
    have hmiss1 : ¬ p <+: c :: (s ++ (t ++ b)) := by
      intro h
      exact hmiss (hover (c :: s) b (by simpa using h))
    rw [List.cons_append, literalReplace_miss p r c _ hmiss1, literalReplace_miss p r c _ hmiss,
      ih, List.cons_append]

/-- The replacement of `t` itself at an occurrence that no earlier occurrence
overlaps. -/
theorem literalReplace_at (t r : JSString) (ht : t ≠ [])
    (hover : ∀ a b, a ≠ [] → t <+: a ++ (t ++ b) → t <+: a) (a b : JSString) :
    literalReplace t r 0 (a ++ (t ++ b))
      = literalReplace t r 0 a ++ (r ++ literalReplace t r 0 b) := by
  refine scan_induction t ht (fun a => literalReplace t r 0 (a ++ (t ++ b))
      = literalReplace t r 0 a ++ (r ++ literalReplace t r 0 b)) ?_ ?_ ?_ a
  · simpa [literalReplace_nil] using literalReplace_hit t r b ht
  · intro s ih
    rw [List.append_assoc, literalReplace_hit t r _ ht, literalReplace_hit t r _ ht, ih,
      List.append_assoc]
  · intro c s hmiss ih
    have hmiss1 : ¬ t <+: c :: (s ++ (t ++ b)) := by
      intro h
      exact hmiss (hover (c :: s) b (by simp) (by simpa using h))
    rw [List.cons_append, literalReplace_miss t r c _ hmiss1, literalReplace_miss t r c _ hmiss,
      ih, List.cons_append]

/-! ## Tokens of keys without braces do not overlap -/

theorem key_eq_of_starts (x k y z : JSString) (hx : 125 ∉ x) (hk : 125 ∉ k)
    (h : x ++ 125 :: y <+: k ++ 125 :: z) : x = k := by
  induction x generalizing k with
  | nil =>
    cases k with
    | nil => rfl
    | cons k0 k1 =>
      have := (List.cons_prefix_cons.mp (by simpa using h)).1
      exact absurd this.symm (by intro e; exact hk (by simp [e]))
  | cons x0 x1 ih =>
    cases k with
    | nil =>
      have := (List.cons_prefix_cons.mp (by simpa using h)).1
      exact absurd this (by intro e; exact hx (by simp [e]))
    | cons k0 k1 =>
      have h1 := List.cons_prefix_cons.mp (by simpa using h)
      have h2 := ih k1 (fun hm => hx (List.mem_cons_of_mem x0 hm))
        (fun hm => hk (List.mem_cons_of_mem k0 hm)) h1.2
      rw [h1.1, h2]

theorem token_prefix_token (x k b : JSString) (hx : 125 ∉ x) (hk : 125 ∉ k)
    (h : token x <+: token k ++ b) : x = k := by
  have h1 : 123 :: 123 :: (x ++ 125 :: [125]) <+: 123 :: 123 :: (k ++ 125 :: (125 :: b)) := by
    simpa [token] using h
  have h2 := (List.cons_prefix_cons.mp (List.cons_prefix_cons.mp h1).2).2
  exact key_eq_of_starts x k _ _ hx hk h2

theorem not_prefix_of_head (c : Nat) (rest l b : JSString) (hl : l ≠ [])
    (hc : c ∉ l) : ¬ (c :: rest) <+: l ++ b := by
  cases l with
  | nil => exact absurd rfl hl
  | cons l0 l1 =>
    intro h
    have h1 : c :: rest <+: l0 :: (l1 ++ b) := h
    exact hc (by simp [(List.cons_prefix_cons.mp h1).1])

theorem not_mem_key_body (k : JSString) (hk : 123 ∉ k) : 123 ∉ k ++ [125, 125] := by
  simp [hk]

theorem not_prefix_cons_of_not_mem (c : Nat) (l z : JSString) (hl : l ≠ [])
    (hc : c ∉ l) : ¬ l <+: c :: z := by
  cases l with
  | nil => exact absurd rfl hl
  | cons l0 l1 =>
    intro h
    exact hc (by simp [(List.cons_prefix_cons.mp h).1])

/-- A proper non-empty end of a token is the token without its first brace,
or holds no opening brace at all. -/
theorem token_proper_suffix (y w u : JSString) (hy : 123 ∉ y) (h : token y = w ++ u)
    (hw : w ≠ []) : u = 123 :: (y ++ [125, 125]) ∨ 123 ∉ u := by
  cases w with
  | nil => exact absurd rfl hw
  | cons w0 w1 =>
    have h1 : 123 :: 123 :: (y ++ [125, 125]) = w0 :: (w1 ++ u) := by simpa [token] using h
    have h2 : 123 :: (y ++ [125, 125]) = w1 ++ u := (List.cons.inj h1).2
    cases w1 with
    | nil => exact Or.inl (by simpa using h2.symm)
    | cons w10 w11 =>
      right
      have h3 : y ++ [125, 125] = w11 ++ u := (List.cons.inj h2).2
      intro hu
      have : 123 ∈ y ++ [125, 125] := by rw [h3]; exact List.mem_append_right _ hu
      exact not_mem_key_body y hy this

theorem token_not_inside (x y w u b : JSString) (hy : 123 ∉ y) (h : token y = w ++ u)
    (hw : w ≠ []) (hu : u ≠ []) : ¬ token x <+: u ++ b := by
  intro hpre
  have hpre1 : 123 :: 123 :: (x ++ [125, 125]) <+: u ++ b := by simpa [token] using hpre
  rcases token_proper_suffix y w u hy h hw with h1 | h1
  · subst h1
    have h2 : 123 :: (x ++ [125, 125]) <+: (y ++ [125, 125]) ++ b :=
      (List.cons_prefix_cons.mp hpre1).2
    exact not_prefix_of_head 123 _ _ b (by simp) (not_mem_key_body y hy) h2
  · exact not_prefix_of_head 123 _ u b hu h1 hpre1

theorem token_overlap (x k a b : JSString) (hx3 : 123 ∉ x) (hx5 : 125 ∉ x)
    (hk5 : 125 ∉ k) (h : token x <+: a ++ (token k ++ b)) :
    token x <+: a ∨ (a = [] ∧ x = k) := by
  rcases prefix_append_cases (token x) a (token k ++ b) h with h1 | ⟨q, hq, hxq, hpre⟩
  · exact Or.inl h1
  · by_cases ha : a = []
    · subst ha
      right
      refine ⟨rfl, token_prefix_token x k b hx5 hk5 ?_⟩
      simpa [hxq] using hpre
    · exfalso
      have hpre1 : q <+: 123 :: (123 :: (k ++ [125, 125]) ++ b) := by
        simpa [token] using hpre
      rcases token_proper_suffix x a q hx3 hxq ha with h1 | h1
      · subst h1
        have h2 : x ++ [125, 125] <+: 123 :: (k ++ [125, 125]) ++ b :=
          (List.cons_prefix_cons.mp hpre1).2
        exact not_prefix_cons_of_not_mem 123 _ _ (by simp) (not_mem_key_body x hx3) h2
      · exact not_prefix_cons_of_not_mem 123 q _ hq h1 hpre1

/-- Keys without SyntaxCharacter hold no brace. -/
theorem PlainKey.no_brace {k : JSString} (hk : PlainKey k) : 123 ∉ k ∧ 125 ∉ k := by
  constructor
  · intro h
    exact hk.1 123 h (by decide)
  · intro h
    exact hk.1 125 h (by decide)

theorem token_last (k a c : JSString) (h : token k = a ++ c) (hc : c ≠ []) : 125 ∈ c := by
  rcases List.eq_nil_or_concat c with hnil | ⟨c1, z, hz⟩
  · exact absurd hnil hc
  · subst hz
    have h1 : (123 :: 123 :: (k ++ [125])) ++ [125] = (a ++ c1) ++ [z] := by
      simpa [token] using h
    have h2 : [125] = [z] := List.append_inj_right' h1 rfl
    have h3 : z = 125 := by simpa using h2.symm
    simp [h3]

theorem key_body_split (k a r d : JSString) (h : k ++ [125, 125] = a ++ (r ++ d))
    (hr : r ≠ []) (h5 : 125 ∉ r) : r <:+: k := by
  rw [← List.append_assoc] at h
  rcases List.append_eq_append_iff.mp h with ⟨e, he, hd⟩ | ⟨c, hk, _⟩
  · by_cases hen : e = []
    · subst hen
      exact ⟨a, [], by simpa using he⟩
    · exfalso
      rcases List.eq_nil_or_concat e with hnil | ⟨e1, w, hw⟩
      · exact hen hnil
      · rcases List.eq_nil_or_concat r with hnil | ⟨r1, z, hz⟩
        · exact hr hnil
        · subst hw hz
          have h1 : (a ++ r1) ++ [z] = (k ++ e1) ++ [w] := by simpa using he
          have h2 : [z] = [w] := List.append_inj_right' h1 rfl
          have hzw : z = w := by simpa using h2
          have hw5 : w ∈ [125, 125] := by
            rw [hd]
            simp
          have : w = 125 := by simpa using hw5
          exact h5 (by simp [hzw, this])
  · exact ⟨a, c, by rw [hk]⟩

theorem value_inside_key (k u r d : JSString) (h : token k = u ++ (r ++ d))
    (hr : r ≠ []) (h3 : 123 ∉ r) (h5 : 125 ∉ r) : r <:+: k := by
  have h1 : [123, 123] ++ (k ++ [125, 125]) = u ++ (r ++ d) := by simpa [token] using h
  rcases List.append_eq_append_iff.mp h1 with ⟨a, _, hk⟩ | ⟨c, hu, hk⟩
  · exact key_body_split k a r d hk hr h5
  · cases c with
    | nil => exact key_body_split k [] r d (by simpa using hk.symm) hr h5
    | cons c0 c1 =>
      exfalso
      have hc0 : c0 ∈ [123, 123] := by
        rw [hu]
        simp
      have hc : c0 = 123 := by simpa using hc0
      cases r with
      | nil => exact hr rfl
      | cons r0 r1 =>
        have : r0 = c0 := (List.cons.inj (by simpa using hk)).1
        exact h3 (by simp [this, hc])

/-- An occurrence of the token of `k` cannot touch a value that avoids it: in
`x ++ v ++ y` it lies in `x` or in `y`. -/
theorem token_split (k v : JSString) (hv : ValueAvoids v k) (x y : JSString)
    (h : token k <:+: x ++ (v ++ y)) : token k <:+: x ∨ token k <:+: y := by
  obtain ⟨hne, h3, h5, hin⟩ := hv
  obtain ⟨a, b, hab⟩ := h
  rw [List.append_assoc] at hab
  rcases List.append_eq_append_iff.mp hab with ⟨a1, hx, htb⟩ | ⟨c1, _, hvy⟩
  · rcases List.append_eq_append_iff.mp htb with ⟨e, ha1, _⟩ | ⟨e, ht, hvy⟩
    · exact Or.inl ⟨a, e, by rw [hx, ha1, List.append_assoc]⟩
    · by_cases hen : e = []
      · subst hen
        exact Or.inl ⟨a, [], by simp [hx, ht]⟩
      · exfalso
        rcases List.append_eq_append_iff.mp hvy with ⟨f, he, _⟩ | ⟨f, hvf, _⟩
        · exact hin (value_inside_key k a1 v f (by rw [ht, he]) hne h3 h5)
        · have := token_last k a1 e ht hen
          exact h5 (by rw [hvf]; exact List.mem_append_left _ this)
  · rcases List.append_eq_append_iff.mp hvy with ⟨f, _, hy⟩ | ⟨f, hvf, htb⟩
    · exact Or.inr ⟨f, b, by rw [hy, List.append_assoc]⟩
    · cases f with
      | nil => exact Or.inr ⟨[], b, by simpa using htb⟩
      | cons f0 f1 =>
        exfalso
        have hf0 : 123 = f0 := (List.cons.inj (by simpa [token] using htb)).1
        exact h3 (by rw [hvf]; simp [← hf0])

/-- One pass for a plain key leaves the token of any other brace-free key
where it is. -/
theorem literalReplace_other_token (x k r a b : JSString) (hx3 : 123 ∉ x)
    (hx5 : 125 ∉ x) (hk3 : 123 ∉ k) (hk5 : 125 ∉ k) (hne : x ≠ k) :
    literalReplace (token x) r 0 (a ++ (token k ++ b))
      = literalReplace (token x) r 0 a ++ (token k ++ literalReplace (token x) r 0 b) := by
  apply literalReplace_around (token x) r (token k) (token_ne_nil x)
  · intro a b h
    rcases token_overlap x k a b hx3 hx5 hk5 h with h1 | ⟨_, h1⟩
    · exact h1
    · exact absurd h1 hne
  · intro w u b hwu hu hpre
    by_cases hw : w = []
    · subst hw
      have hu1 : u = token k := by simpa using hwu.symm
      subst hu1
      exact hne (token_prefix_token x k b hx5 hk5 hpre)
    · exact token_not_inside x k w u b hk3 hwu hw hu hpre

/-- One pass for a brace-free key replaces a given occurrence of its token by
the value, the parts before and after being replaced on their own. -/
theorem literalReplace_own_token (k r a b : JSString) (hk3 : 123 ∉ k) (hk5 : 125 ∉ k) :
    literalReplace (token k) r 0 (a ++ (token k ++ b))
      = literalReplace (token k) r 0 a ++ (r ++ literalReplace (token k) r 0 b) := by
  apply literalReplace_at (token k) r (token_ne_nil k)
  intro a b ha h
  rcases token_overlap k k a b hk3 hk5 hk5 h with h1 | ⟨h1, _⟩
  · exact h1
  · exact absurd h1 ha

/-! ## The substitution over the whole parameter list -/

theorem specSubstitute_append (m : JSString) (pre post : List Parameter) :
    specSubstitute m (pre ++ post) = specSubstitute (specSubstitute m pre) post := by
  simp [specSubstitute, List.foldl_append]

theorem specSubstitute_cons (m : JSString) (p : Parameter) (ps : List Parameter) :
    specSubstitute m (p :: ps)
      = specSubstitute (literalReplace (token p.key) p.value 0 m) ps := rfl

theorem specSubstitute_around (ps : List Parameter) (k a b : JSString)
    (hkeys : ∀ p ∈ ps, PlainKey p.key) (hk3 : 123 ∉ k) (hk5 : 125 ∉ k)
    (hnot : ∀ p ∈ ps, p.key ≠ k) :
    specSubstitute (a ++ (token k ++ b)) ps
      = specSubstitute a ps ++ (token k ++ specSubstitute b ps) := by
  induction ps generalizing a b with
  | nil => rfl
  | cons p ps ih =>
    have hp := (hkeys p (List.mem_cons_self p ps)).no_brace
    rw [specSubstitute_cons, specSubstitute_cons, specSubstitute_cons,
      literalReplace_other_token p.key k p.value a b hp.1 hp.2 hk3 hk5
        (hnot p (List.mem_cons_self p ps))]
    exact ih _ _ (fun q hq => hkeys q (List.mem_cons_of_mem p hq))
      (fun q hq => hnot q (List.mem_cons_of_mem p hq))

theorem specSubstitute_absent (ps : List Parameter) (k m : JSString)
    (hvals : ∀ p ∈ ps, ValueAvoids p.value k) (h : ¬ token k <:+: m) :
    ¬ token k <:+: specSubstitute m ps := by
  induction ps generalizing m with
  | nil => exact h
  | cons p ps ih =>
    rw [specSubstitute_cons]
    refine ih _ (fun q hq => hvals q (List.mem_cons_of_mem p hq)) ?_
    have hp := hvals p (List.mem_cons_self p ps)
    have := not_infix_literalReplace (token p.key) p.value (token k) (token_ne_nil p.key)
      (token_split k p.value hp) m [] (by simpa using h)
    simpa using this

theorem token_gone (k v s : JSString) (hv : ValueAvoids v k) :
    ¬ token k <:+: literalReplace (token k) v 0 s := by
  have := pattern_gone_after (token k) v (token_ne_nil k) (token_split k v hv) s [] (by
    intro a u hau hu
    exact absurd (List.append_eq_nil.mp hau.symm).2 hu)
  simpa using this

/-! ## Preview substitution: theorems -/

/-- The scenario with both default parameters: each token is replaced by its
value. -/
theorem substitute_scenario :
    substitute (utf16 "Hello " ++ token (utf16 "customer_name") ++ utf16 ", welcome to "
        ++ token (utf16 "plan_type") ++ utf16 "!")
      [⟨utf16 "customer_name", utf16 "Amit Kumar"⟩, ⟨utf16 "plan_type", utf16 "Premium"⟩]
      = .ok (utf16 "Hello Amit Kumar, welcome to Premium!") := by decide

/-- C1 fails on the code: the key `a.c` is compiled as a pattern whose dot
matches any code unit, so the token of `abc` is replaced although the literal
substitution leaves the markup as it is; and the value `$&` is expanded to the
matched text instead of being inserted as it is. -/
theorem substitute_not_literal :
    substitute (token (utf16 "abc")) [⟨utf16 "a.c", utf16 "X"⟩] = .ok (utf16 "X") ∧
      specSubstitute (token (utf16 "abc")) [⟨utf16 "a.c", utf16 "X"⟩] = token (utf16 "abc") ∧
      substitute (token (utf16 "k")) [⟨utf16 "k", utf16 "$&"⟩] = .ok (token (utf16 "k")) ∧
      specSubstitute (token (utf16 "k")) [⟨utf16 "k", utf16 "$&"⟩] = utf16 "$&" := by
  decide

/-- C2 (as the code behaves): with plain keys and values free of `$`, the
output holds no occurrence of the token of `k` when the value of that entry and
the values of all entries after it are non-empty, hold no brace and are not a
part of `k`. -/
theorem token_absent_after (pre post : List Parameter) (k v m : JSString)
    (hkeys : ∀ p ∈ pre ++ ⟨k, v⟩ :: post, PlainKey p.key)
    (hvals : ∀ p ∈ pre ++ ⟨k, v⟩ :: post, DollarFree p.value)
    (hv : ValueAvoids v k) (hpost : ∀ p ∈ post, ValueAvoids p.value k) :
    ∃ out, substitute m (pre ++ ⟨k, v⟩ :: post) = .ok out ∧ ¬ token k <:+: out := by
  refine ⟨_, substitute_eq_specSubstitute _ m hkeys hvals, ?_⟩
  rw [specSubstitute_append, specSubstitute_cons]
  exact specSubstitute_absent post k _ hpost (token_gone k v _ hv)

theorem token_absent_after_witness :
    (∀ p ∈ [(⟨utf16 "greeting", utf16 "Hi"⟩ : Parameter)] ++
        ⟨utf16 "customer_name", utf16 "Amit Kumar"⟩ :: [⟨utf16 "plan_type", utf16 "Premium"⟩],
        PlainKey p.key) ∧
    ∃ out, substitute (utf16 "Hello " ++ token (utf16 "customer_name"))
        ([(⟨utf16 "greeting", utf16 "Hi"⟩ : Parameter)] ++
          ⟨utf16 "customer_name", utf16 "Amit Kumar"⟩ :: [⟨utf16 "plan_type", utf16 "Premium"⟩])
        = .ok out ∧ ¬ token (utf16 "customer_name") <:+: out :=
  ⟨by decide, token_absent_after [⟨utf16 "greeting", utf16 "Hi"⟩] [⟨utf16 "plan_type", utf16 "Premium"⟩]
    (utf16 "customer_name") (utf16 "Amit Kumar") (utf16 "Hello " ++ token (utf16 "customer_name"))
    (by decide) (by decide) (by decide) (by decide)⟩

/-- C2 fails as stated: the key `a` has the non-empty value `x`, yet the
output holds the token of `a`, brought in by the value of the later key `b`. -/
theorem token_absent_counterexample :
    substitute (token (utf16 "b")) [⟨utf16 "a", utf16 "x"⟩, ⟨utf16 "b", token (utf16 "a")⟩]
        = .ok (token (utf16 "a")) ∧
      token (utf16 "a") <:+: token (utf16 "a") ∧ utf16 "x" ≠ [] := by
  decide

/-- C3 (as the code behaves): with plain keys and values free of `$`, an
occurrence of the token of a key `k` that holds no brace and is the key of no
parameter stays where it is: the output on `a ++ token k ++ b` is the output
on `a`, the token, and the output on `b`. -/
theorem unknown_token_untouched (ps : List Parameter) (k a b : JSString)
    (hkeys : ∀ p ∈ ps, PlainKey p.key) (hvals : ∀ p ∈ ps, DollarFree p.value)
    (hk3 : 123 ∉ k) (hk5 : 125 ∉ k) (hnot : ∀ p ∈ ps, p.key ≠ k) :
    ∃ a1 b1, substitute a ps = .ok a1 ∧ substitute b ps = .ok b1 ∧
      substitute (a ++ token k ++ b) ps = .ok (a1 ++ token k ++ b1) := by
  refine ⟨_, _, substitute_eq_specSubstitute ps a hkeys hvals,
    substitute_eq_specSubstitute ps b hkeys hvals, ?_⟩
  rw [substitute_eq_specSubstitute ps _ hkeys hvals, List.append_assoc,
    specSubstitute_around ps k a b hkeys hk3 hk5 hnot, List.append_assoc]

theorem unknown_token_untouched_witness :
    (∀ p ∈ [(⟨utf16 "customer_name", utf16 "Amit Kumar"⟩ : Parameter)],
        p.key ≠ utf16 "plan_type") ∧
    ∃ a1 b1,
      substitute (utf16 "Hello " ++ token (utf16 "customer_name") ++ utf16 ", welcome to ")
        [⟨utf16 "customer_name", utf16 "Amit Kumar"⟩] = .ok a1 ∧
      substitute (utf16 "!") [⟨utf16 "customer_name", utf16 "Amit Kumar"⟩] = .ok b1 ∧
      substitute ((utf16 "Hello " ++ token (utf16 "customer_name") ++ utf16 ", welcome to ")
          ++ token (utf16 "plan_type") ++ utf16 "!")
        [⟨utf16 "customer_name", utf16 "Amit Kumar"⟩]
        = .ok (a1 ++ token (utf16 "plan_type") ++ b1) :=
  ⟨by decide, unknown_token_untouched [⟨utf16 "customer_name", utf16 "Amit Kumar"⟩]
    (utf16 "plan_type") (utf16 "Hello " ++ token (utf16 "customer_name") ++ utf16 ", welcome to ")
    (utf16 "!") (by decide) (by decide) (by decide) (by decide) (by decide)⟩

/-- The scenario without a `plan_type` entry: its token stays in the output. -/
theorem substitute_scenario_unknown :
    substitute (utf16 "Hello " ++ token (utf16 "customer_name") ++ utf16 ", welcome to "
        ++ token (utf16 "plan_type") ++ utf16 "!")
      [⟨utf16 "customer_name", utf16 "Amit Kumar"⟩]
      = .ok (utf16 "Hello Amit Kumar, welcome to " ++ token (utf16 "plan_type") ++ utf16 "!") := by
  decide

/-- C3 fails as stated: the key `x{{a}}y` is the key of no parameter, its
token stands in the markup, and the pass for the key `a` rewrites the inside
of that token, which is no longer in the output. -/
theorem unknown_token_counterexample :
    substitute (token (utf16 "x" ++ token (utf16 "a") ++ utf16 "y")) [⟨utf16 "a", utf16 "1"⟩]
        = .ok (token (utf16 "x1y")) ∧
      token (utf16 "x" ++ token (utf16 "a") ++ utf16 "y")
        <:+: token (utf16 "x" ++ token (utf16 "a") ++ utf16 "y") ∧
      ¬ token (utf16 "x" ++ token (utf16 "a") ++ utf16 "y") <:+: token (utf16 "x1y") ∧
      ∀ p ∈ [(⟨utf16 "a", utf16 "1"⟩ : Parameter)],
        p.key ≠ utf16 "x" ++ token (utf16 "a") ++ utf16 "y" := by
  decide

/-- C4 (as the code behaves): with plain keys and values free of `$`, let the
entry of key `k` have the value `v1 ++ token x ++ v2` and let no entry before
it have the key `k`.  At an occurrence of the token of `k`:
right after the pass of that entry the whole value stands as it is, whatever
the entries before it are; the passes of later entries `mid` whose keys differ
from `x` leave its token of `x` where it is, `v1` and `v2` going through these
passes with the text around them; and the pass of the first later entry of key
`x` replaces that token by the value `w` of that entry, the output being what
the remaining passes `rest` make of the result. -/
theorem value_token_survives (pre mid rest : List Parameter) (k v1 x v2 w a b : JSString)
    (hkeys : ∀ p ∈ pre ++ ⟨k, v1 ++ token x ++ v2⟩ :: (mid ++ ⟨x, w⟩ :: rest), PlainKey p.key)
    (hvals : ∀ p ∈ pre ++ ⟨k, v1 ++ token x ++ v2⟩ :: (mid ++ ⟨x, w⟩ :: rest),
      DollarFree p.value)
    (hpre : ∀ p ∈ pre, p.key ≠ k) (hmid : ∀ p ∈ mid, p.key ≠ x) :
    ∃ a1 b1 a2 b2 l r l2 r2,
      substitute a pre = .ok a1 ∧ substitute b pre = .ok b1 ∧
      regexReplace (token k) (orEmpty (v1 ++ token x ++ v2)) a1 = .ok a2 ∧
      regexReplace (token k) (orEmpty (v1 ++ token x ++ v2)) b1 = .ok b2 ∧
      substitute (a ++ token k ++ b) (pre ++ [⟨k, v1 ++ token x ++ v2⟩])
        = .ok (a2 ++ (v1 ++ token x ++ v2) ++ b2) ∧
      substitute (a2 ++ v1) mid = .ok l ∧ substitute (v2 ++ b2) mid = .ok r ∧
      substitute (a ++ token k ++ b) (pre ++ ⟨k, v1 ++ token x ++ v2⟩ :: mid)
        = .ok (l ++ token x ++ r) ∧
      regexReplace (token x) (orEmpty w) l = .ok l2 ∧
      regexReplace (token x) (orEmpty w) r = .ok r2 ∧
      substitute (a ++ token k ++ b) (pre ++ ⟨k, v1 ++ token x ++ v2⟩ :: (mid ++ [⟨x, w⟩]))
        = .ok (l2 ++ w ++ r2) ∧
      substitute (a ++ token k ++ b)
          (pre ++ ⟨k, v1 ++ token x ++ v2⟩ :: (mid ++ ⟨x, w⟩ :: rest))
        = substitute (l2 ++ w ++ r2) rest := by
  have sub : ∀ qs : List Parameter,
      (∀ p ∈ qs, p ∈ pre ++ ⟨k, v1 ++ token x ++ v2⟩ :: (mid ++ ⟨x, w⟩ :: rest)) →
      (∀ p ∈ qs, PlainKey p.key) ∧ (∀ p ∈ qs, DollarFree p.value) :=
    fun qs h => ⟨fun p hp => hkeys p (h p hp), fun p hp => hvals p (h p hp)⟩
  have hPre := sub pre (fun p hp => by simp [hp])
  have hMid := sub mid (fun p hp => by simp [hp])
  have hRest := sub rest (fun p hp => by simp [hp])
  have hOwn := sub (pre ++ [⟨k, v1 ++ token x ++ v2⟩]) (fun p hp => by
    simp only [List.mem_append, List.mem_cons, List.mem_singleton, List.not_mem_nil,
      or_false] at hp ⊢
    tauto)
  have hUpto := sub (pre ++ ⟨k, v1 ++ token x ++ v2⟩ :: mid) (fun p hp => by
    simp only [List.mem_append, List.mem_cons] at hp ⊢
    tauto)
  have hWith := sub (pre ++ ⟨k, v1 ++ token x ++ v2⟩ :: (mid ++ [⟨x, w⟩])) (fun p hp => by
    simp only [List.mem_append, List.mem_cons, List.mem_singleton, List.not_mem_nil,
      or_false] at hp ⊢
    tauto)
  have hk : PlainKey k := hkeys ⟨k, v1 ++ token x ++ v2⟩ (by simp)
  have hv : DollarFree (v1 ++ token x ++ v2) := hvals ⟨k, v1 ++ token x ++ v2⟩ (by simp)
  have hx : PlainKey x := hkeys ⟨x, w⟩ (by simp)
  have hw : DollarFree w := hvals ⟨x, w⟩ (by simp)
  have f1 : specSubstitute (a ++ token k ++ b) pre
      = specSubstitute a pre ++ (token k ++ specSubstitute b pre) := by
    rw [List.append_assoc]
    exact specSubstitute_around pre k a b hPre.1 hk.no_brace.1 hk.no_brace.2 hpre
  have f2 : literalReplace (token k) (v1 ++ token x ++ v2) 0
        (specSubstitute (a ++ token k ++ b) pre)
      = literalReplace (token k) (v1 ++ token x ++ v2) 0 (specSubstitute a pre) ++
        ((v1 ++ token x ++ v2) ++
          literalReplace (token k) (v1 ++ token x ++ v2) 0 (specSubstitute b pre)) := by
    rw [f1]
    exact literalReplace_own_token k _ _ _ hk.no_brace.1 hk.no_brace.2
  have f3 : specSubstitute (literalReplace (token k) (v1 ++ token x ++ v2) 0
        (specSubstitute (a ++ token k ++ b) pre)) mid
      = specSubstitute (literalReplace (token k) (v1 ++ token x ++ v2) 0
            (specSubstitute a pre) ++ v1) mid ++
        (token x ++ specSubstitute (v2 ++ literalReplace (token k) (v1 ++ token x ++ v2) 0
            (specSubstitute b pre)) mid) := by
    rw [f2]
    have hshape : literalReplace (token k) (v1 ++ token x ++ v2) 0 (specSubstitute a pre) ++
        ((v1 ++ token x ++ v2) ++
          literalReplace (token k) (v1 ++ token x ++ v2) 0 (specSubstitute b pre))
        = (literalReplace (token k) (v1 ++ token x ++ v2) 0 (specSubstitute a pre) ++ v1) ++
          (token x ++ (v2 ++
            literalReplace (token k) (v1 ++ token x ++ v2) 0 (specSubstitute b pre))) := by
      simp only [List.append_assoc]
    rw [hshape]
    exact specSubstitute_around mid x _ _ hMid.1 hx.no_brace.1 hx.no_brace.2 hmid
  have f4 : ∀ l r : JSString, literalReplace (token x) w 0 (l ++ (token x ++ r))
      = literalReplace (token x) w 0 l ++ (w ++ literalReplace (token x) w 0 r) :=
    fun l r => literalReplace_own_token x w l r hx.no_brace.1 hx.no_brace.2
  have g5 : specSubstitute (a ++ token k ++ b)
        (pre ++ ⟨k, v1 ++ token x ++ v2⟩ :: (mid ++ [⟨x, w⟩]))
      = literalReplace (token x) w 0 (specSubstitute (literalReplace (token k)
          (v1 ++ token x ++ v2) 0 (specSubstitute (a ++ token k ++ b) pre)) mid) := by
    rw [specSubstitute_append, specSubstitute_cons, specSubstitute_append]
    rfl
  have g6 : specSubstitute (a ++ token k ++ b)
        (pre ++ ⟨k, v1 ++ token x ++ v2⟩ :: (mid ++ ⟨x, w⟩ :: rest))
      = specSubstitute (literalReplace (token x) w 0 (specSubstitute (literalReplace (token k)
          (v1 ++ token x ++ v2) 0 (specSubstitute (a ++ token k ++ b) pre)) mid)) rest := by
    rw [specSubstitute_append, specSubstitute_cons, specSubstitute_append,
      specSubstitute_cons]
  refine ⟨_, _, _, _, _, _, _, _,
    substitute_eq_specSubstitute pre a hPre.1 hPre.2,
    substitute_eq_specSubstitute pre b hPre.1 hPre.2,
    regexReplace_plain k _ _ hk hv, regexReplace_plain k _ _ hk hv, ?_,
    substitute_eq_specSubstitute mid _ hMid.1 hMid.2,
    substitute_eq_specSubstitute mid _ hMid.1 hMid.2, ?_,
    regexReplace_plain x _ _ hx hw, regexReplace_plain x _ _ hx hw, ?_, ?_⟩
  · rw [substitute_eq_specSubstitute _ _ hOwn.1 hOwn.2, specSubstitute_append]
    show Except.ok (literalReplace (token k) (v1 ++ token x ++ v2) 0
      (specSubstitute (a ++ token k ++ b) pre)) = _
    rw [f2]
    simp only [List.append_assoc]
  · rw [substitute_eq_specSubstitute _ _ hUpto.1 hUpto.2, specSubstitute_append,
      specSubstitute_cons, f3]
    simp only [List.append_assoc]
  · rw [substitute_eq_specSubstitute _ _ hWith.1 hWith.2, g5, f3, f4]
    simp only [List.append_assoc]
  · rw [substitute_eq_specSubstitute _ _ hkeys hvals, g6, f3, f4,
      substitute_eq_specSubstitute rest _ hRest.1 hRest.2]
    simp only [List.append_assoc]

theorem value_token_survives_witness :
    (∀ p ∈ [(⟨utf16 "plan_type", utf16 "Premium"⟩ : Parameter)],
        p.key ≠ utf16 "customer_name") ∧
    ∃ a1 b1 a2 b2 l r l2 r2,
      substitute (utf16 "Hello ") [⟨utf16 "plan_type", utf16 "Premium"⟩] = .ok a1 ∧
      substitute (utf16 "!") [⟨utf16 "plan_type", utf16 "Premium"⟩] = .ok b1 ∧
      regexReplace (token (utf16 "customer_name"))
        (orEmpty (utf16 "Amit (" ++ token (utf16 "plan_type") ++ utf16 ")")) a1 = .ok a2 ∧
      regexReplace (token (utf16 "customer_name"))
        (orEmpty (utf16 "Amit (" ++ token (utf16 "plan_type") ++ utf16 ")")) b1 = .ok b2 ∧
      substitute (utf16 "Hello " ++ token (utf16 "customer_name") ++ utf16 "!")
        ([⟨utf16 "plan_type", utf16 "Premium"⟩] ++
          [⟨utf16 "customer_name", utf16 "Amit (" ++ token (utf16 "plan_type") ++ utf16 ")"⟩])
        = .ok (a2 ++ (utf16 "Amit (" ++ token (utf16 "plan_type") ++ utf16 ")") ++ b2) ∧
      substitute (a2 ++ utf16 "Amit (") [⟨utf16 "theme", utf16 "ocean"⟩] = .ok l ∧
      substitute (utf16 ")" ++ b2) [⟨utf16 "theme", utf16 "ocean"⟩] = .ok r ∧
      substitute (utf16 "Hello " ++ token (utf16 "customer_name") ++ utf16 "!")
        ([⟨utf16 "plan_type", utf16 "Premium"⟩] ++
          ⟨utf16 "customer_name", utf16 "Amit (" ++ token (utf16 "plan_type") ++ utf16 ")"⟩ ::
          [⟨utf16 "theme", utf16 "ocean"⟩])
        = .ok (l ++ token (utf16 "plan_type") ++ r) ∧
      regexReplace (token (utf16 "plan_type")) (orEmpty (utf16 "Basic")) l = .ok l2 ∧
      regexReplace (token (utf16 "plan_type")) (orEmpty (utf16 "Basic")) r = .ok r2 ∧
      substitute (utf16 "Hello " ++ token (utf16 "customer_name") ++ utf16 "!")
        ([⟨utf16 "plan_type", utf16 "Premium"⟩] ++
          ⟨utf16 "customer_name", utf16 "Amit (" ++ token (utf16 "plan_type") ++ utf16 ")"⟩ ::
          ([⟨utf16 "theme", utf16 "ocean"⟩] ++ [⟨utf16 "plan_type", utf16 "Basic"⟩]))
        = .ok (l2 ++ utf16 "Basic" ++ r2) ∧
      substitute (utf16 "Hello " ++ token (utf16 "customer_name") ++ utf16 "!")
        ([⟨utf16 "plan_type", utf16 "Premium"⟩] ++
          ⟨utf16 "customer_name", utf16 "Amit (" ++ token (utf16 "plan_type") ++ utf16 ")"⟩ ::
          ([⟨utf16 "theme", utf16 "ocean"⟩] ++
            ⟨utf16 "plan_type", utf16 "Basic"⟩ :: [⟨utf16 "footer", utf16 "Bye"⟩]))
        = substitute (l2 ++ utf16 "Basic" ++ r2) [⟨utf16 "footer", utf16 "Bye"⟩] :=
  ⟨by decide, value_token_survives [⟨utf16 "plan_type", utf16 "Premium"⟩]
    [⟨utf16 "theme", utf16 "ocean"⟩] [⟨utf16 "footer", utf16 "Bye"⟩]
    (utf16 "customer_name") (utf16 "Amit (") (utf16 "plan_type") (utf16 ")") (utf16 "Basic")
    (utf16 "Hello ") (utf16 "!") (by decide) (by decide) (by decide) (by decide)⟩

/-- The scenario of the witness above, evaluated: the token of `plan_type`
brought in by the value of `customer_name` is not touched by the earlier
`plan_type` entry and is replaced by the later one. -/
theorem value_token_scenario :
    substitute (utf16 "Hello " ++ token (utf16 "customer_name") ++ utf16 "!")
      [⟨utf16 "plan_type", utf16 "Premium"⟩,
       ⟨utf16 "customer_name", utf16 "Amit (" ++ token (utf16 "plan_type") ++ utf16 ")"⟩,
       ⟨utf16 "theme", utf16 "ocean"⟩, ⟨utf16 "plan_type", utf16 "Basic"⟩,
       ⟨utf16 "footer", utf16 "Bye"⟩]
      = .ok (utf16 "Hello Amit (Basic)!") ∧
    substitute (utf16 "Hello " ++ token (utf16 "customer_name") ++ utf16 "!")
      [⟨utf16 "plan_type", utf16 "Premium"⟩,
       ⟨utf16 "customer_name", utf16 "Amit (" ++ token (utf16 "plan_type") ++ utf16 ")"⟩,
       ⟨utf16 "theme", utf16 "ocean"⟩]
      = .ok (utf16 "Hello Amit (" ++ token (utf16 "plan_type") ++ utf16 ")!") := by
  decide

/-- C4 fails as stated: the value of `a` is the token of `b`, a key that comes
later in store order, and the pass for `b` substitutes it: the output is `Z`
and the token is gone. -/
theorem value_token_counterexample :
    substitute (token (utf16 "a")) [⟨utf16 "a", token (utf16 "b")⟩, ⟨utf16 "b", utf16 "Z"⟩]
        = .ok (utf16 "Z") ∧
      ¬ token (utf16 "b") <:+: utf16 "Z" := by
  decide

/-- C5 (as the code behaves): of two entries with the same key `k` the
earlier one decides.  With plain keys and values free of `$`, when the value
of the earlier entry and the values of the entries between the two avoid the
token of `k`, the later entry changes nothing in the output; and on the list
of the two entries alone every occurrence of the token is replaced by the
value of the earlier one. -/
theorem duplicate_key_first_wins (pre mid post : List Parameter) (k v1 v2 m : JSString)
    (hkeys : ∀ p ∈ pre ++ ⟨k, v1⟩ :: (mid ++ ⟨k, v2⟩ :: post), PlainKey p.key)
    (hvals : ∀ p ∈ pre ++ ⟨k, v1⟩ :: (mid ++ ⟨k, v2⟩ :: post), DollarFree p.value)
    (hv1 : ValueAvoids v1 k) (hmid : ∀ p ∈ mid, ValueAvoids p.value k) :
    (∃ out, substitute m (pre ++ ⟨k, v1⟩ :: (mid ++ ⟨k, v2⟩ :: post)) = .ok out ∧
        substitute m (pre ++ ⟨k, v1⟩ :: (mid ++ post)) = .ok out) ∧
      substitute m [⟨k, v1⟩, ⟨k, v2⟩] = .ok (literalReplace (token k) v1 0 m) := by
  have hk : PlainKey k := hkeys ⟨k, v1⟩ (by simp)
  have hd1 : DollarFree v1 := hvals ⟨k, v1⟩ (by simp)
  have hd2 : DollarFree v2 := hvals ⟨k, v2⟩ (by simp)
  have hkeys1 : ∀ p ∈ pre ++ ⟨k, v1⟩ :: (mid ++ post), PlainKey p.key := by
    intro p hp
    apply hkeys p
    simp only [List.mem_append, List.mem_cons] at hp ⊢
    tauto
  have hvals1 : ∀ p ∈ pre ++ ⟨k, v1⟩ :: (mid ++ post), DollarFree p.value := by
    intro p hp
    apply hvals p
    simp only [List.mem_append, List.mem_cons] at hp ⊢
    tauto
  have hgone : ∀ s, literalReplace (token k) v2 0
      (specSubstitute (literalReplace (token k) v1 0 s) mid)
      = specSubstitute (literalReplace (token k) v1 0 s) mid := fun s =>
    literalReplace_of_absent _ _ _
      (specSubstitute_absent mid k _ hmid (token_gone k v1 s hv1))
  constructor
  · refine ⟨_, substitute_eq_specSubstitute _ m hkeys hvals, ?_⟩
    rw [substitute_eq_specSubstitute _ m hkeys1 hvals1]
    simp only [specSubstitute_append, specSubstitute_cons, hgone]
  · have h2 : ∀ p ∈ [(⟨k, v1⟩ : Parameter), ⟨k, v2⟩], PlainKey p.key := by
      intro p hp
      simp only [List.mem_cons, List.mem_singleton, List.not_mem_nil, or_false] at hp
      rcases hp with rfl | rfl <;> exact hk
    have h3 : ∀ p ∈ [(⟨k, v1⟩ : Parameter), ⟨k, v2⟩], DollarFree p.value := by
      intro p hp
      simp only [List.mem_cons, List.mem_singleton, List.not_mem_nil, or_false] at hp
      rcases hp with rfl | rfl
      · exact hd1
      · exact hd2
    rw [substitute_eq_specSubstitute _ m h2 h3]
    have := hgone m
    simp only [specSubstitute, List.foldl_cons, List.foldl_nil] at this ⊢
    rw [literalReplace_of_absent _ _ _ (token_gone k v1 m hv1)]

theorem duplicate_key_first_wins_witness :
    ValueAvoids (utf16 "Amit Kumar") (utf16 "customer_name") ∧
    ((∃ out, substitute (utf16 "Hello " ++ token (utf16 "customer_name"))
          ([] ++ ⟨utf16 "customer_name", utf16 "Amit Kumar"⟩ ::
            ([⟨utf16 "plan_type", utf16 "Premium"⟩] ++
              ⟨utf16 "customer_name", utf16 "Someone Else"⟩ :: [])) = .ok out ∧
        substitute (utf16 "Hello " ++ token (utf16 "customer_name"))
          ([] ++ ⟨utf16 "customer_name", utf16 "Amit Kumar"⟩ ::
            ([⟨utf16 "plan_type", utf16 "Premium"⟩] ++ [])) = .ok out) ∧
      substitute (utf16 "Hello " ++ token (utf16 "customer_name"))
        [⟨utf16 "customer_name", utf16 "Amit Kumar"⟩, ⟨utf16 "customer_name", utf16 "Someone Else"⟩]
        = .ok (literalReplace (token (utf16 "customer_name")) (utf16 "Amit Kumar") 0
            (utf16 "Hello " ++ token (utf16 "customer_name")))) :=
  ⟨by decide, duplicate_key_first_wins [] [⟨utf16 "plan_type", utf16 "Premium"⟩] []
    (utf16 "customer_name") (utf16 "Amit Kumar") (utf16 "Someone Else")
    (utf16 "Hello " ++ token (utf16 "customer_name"))
    (by decide) (by decide) (by decide) (by decide)⟩

/-- C5 fails as stated: with the key `a` entered twice, the output carries
the value of the earlier entry, not of the later one. -/
theorem duplicate_key_counterexample :
    substitute (token (utf16 "a")) [⟨utf16 "a", utf16 "1"⟩, ⟨utf16 "a", utf16 "2"⟩]
        = .ok (utf16 "1") ∧
      utf16 "1" ≠ utf16 "2" := by
  decide

end EmailDesigner
